import Mathlib

/-!
# Ledger: a verification development

Shallow embedding of the `ledger` library (tamper-evident, per-entry signed,
hash-chained conversation logs) and proofs about its verifier, storage layer
and session operations.

Conventions of the embedding:

* Python `str` is modelled by `String`, Python `int` by `Int`, byte strings by
  `List Nat` with entries below 256.
* Fallible Python code (code that may raise) is modelled with `Except String`
  or `Option`; the error strings stand for the exception that the source
  raises at the corresponding place.
* The Ed25519 primitives and SHA-256 live in `ledger/crypto/` which is not
  part of the sources at hand; they are modelled symbolically from the spec
  (see the doc comments of `sha256Hex` and `AgentKeyPair`): hashing is
  idealized as a perfectly collision-resistant function of the canonical
  bytes, and a signature is an injective function of the signing key and the
  signed bytes, verified by recomputation.  This is the standard symbolic
  (Dolev-Yao) idealization; the claims under study are about the chain and
  verifier logic, not about the cryptographic strength of the primitives.
-/

namespace Ledger

/-- `ledger/core/types.py`: W3C Data Integrity style signature proof. -/
structure Proof where
  type : String := "Ed25519Signature2020"
  created : String := ""
  verification_method : String := ""
  proof_purpose : String := "assertionMethod"
  proof_value : String := ""
deriving DecidableEq, Repr

/-- `ledger/core/types.py`: single signed entry in the conversation chain.
`agent_role` is a `Literal` string in the source (not enforced at runtime),
hence a plain `String` here. -/
structure Message where
  id : String
  timestamp : String
  session_id : String
  sequence : Int
  agent_id : String
  agent_role : String
  content : String
  content_type : String := "text/plain"
  prev_hash : String := ""
  proof : Option Proof := none
deriving DecidableEq, Repr

/-! ## Canonical JSON (RFC 8785 / JCS), `ledger/core/canon.py`

`canonical_json` serializes a dict with keys sorted lexicographically, no
whitespace, minimal string escaping, UTF-8 output.  The dicts this program
canonicalizes all have a fixed key set (a `Message.to_dict()` with or without
its `proof` key), so the serializer is specialized to that shape; keys appear
in their sorted order.  We work at the level of `List Char`; the UTF-8 byte
encoding is injective so `String` equality is equivalent to byte equality. -/

/-- Lowercase hexadecimal digit. -/
def hexDigitChar (n : Nat) : Char :=
  Char.ofNat (if n < 10 then 48 + n else 87 + n)

/-- JCS / ECMAScript `JSON.stringify` escaping of one character: `"` and `\`
get a backslash escape, the five control characters with short forms use
them, remaining control characters use lowercase `\u00xx`, everything else
is passed through. -/
def escJCS (c : Char) : List Char :=
  if c = '"' then ['\\', '"']
  else if c = '\\' then ['\\', '\\']
  else if c = Char.ofNat 8 then ['\\', 'b']
  else if c = Char.ofNat 9 then ['\\', 't']
  else if c = Char.ofNat 10 then ['\\', 'n']
  else if c = Char.ofNat 12 then ['\\', 'f']
  else if c = Char.ofNat 13 then ['\\', 'r']
  else if c.toNat < 32 then
    ['\\', 'u', '0', '0', hexDigitChar (c.toNat / 16), hexDigitChar (c.toNat % 16)]
  else [c]

/-- A JSON string literal (opening quote, escaped body, closing quote) with a
configurable per-character escape. -/
def strWith (esc : Char → List Char) (s : String) : List Char :=
  '"' :: (s.data.flatMap esc ++ ['"'])

/-- JSON string literal with JCS escaping. -/
def jsonStrL (s : String) : List Char := strWith escJCS s

/-- Canonical serialization of an integer (ECMAScript integer form; Python
`jcs` emits `str(int)`). -/
def intCanonL (n : Int) : List Char := (toString n).data

def litAgentId : List Char := ("\x7b\"agent_id\":").data
def litAgentRole : List Char := (",\"agent_role\":").data
def litContent : List Char := (",\"content\":").data
def litContentType : List Char := (",\"content_type\":").data
def litId : List Char := (",\"id\":").data
def litPrevHash : List Char := (",\"prev_hash\":").data
def litProof : List Char := (",\"proof\":").data
def litSeq : List Char := (",\"sequence\":").data
def litSession : List Char := (",\"session_id\":").data
def litTimestamp : List Char := (",\"timestamp\":").data
def litEnd : List Char := ("\x7d").data
def litEmptyObj : List Char := ("\x7b\x7d").data
def litCreated : List Char := ("\x7b\"created\":").data
def litPurpose : List Char := (",\"proof_purpose\":").data
def litValue : List Char := (",\"proof_value\":").data
def litType : List Char := (",\"type\":").data
def litVerif : List Char := (",\"verification_method\":").data

/-- Serialization of the proof block as a JSON object, keys in sorted order
(`created`, `proof_purpose`, `proof_value`, `type`, `verification_method`),
with a configurable string escape (JCS escaping inside `canonical_json`,
Python `json.dumps` escaping inside the storage layer). -/
def proofObjWith (esc : Char → List Char) (p : Proof) : List Char :=
  litCreated ++ (strWith esc p.created ++ (litPurpose ++ (strWith esc p.proof_purpose ++
    (litValue ++ (strWith esc p.proof_value ++ (litType ++ (strWith esc p.type ++
      (litVerif ++ (strWith esc p.verification_method ++ litEnd)))))))))

/-- `Message.to_dict()` maps a `None` proof to `{}` and an actual proof to its
field dict; this is the `proof` value inside `canonical_json(msg.to_dict())`. -/
def proofObjL : Option Proof → List Char
  | none => litEmptyObj
  | some p => proofObjWith escJCS p

/-- Canonical JSON of `msg.to_dict()` with the `proof` key removed, i.e. of
`{k: v for k, v in msg.to_dict().items() if k != "proof"}` — the byte string
the verifier (and the storage layer) build for an entry's signing payload.
Keys appear in JCS sorted order. -/
def canonPayloadL (m : Message) : List Char :=
  litAgentId ++ (jsonStrL m.agent_id ++ (litAgentRole ++ (jsonStrL m.agent_role ++
    (litContent ++ (jsonStrL m.content ++ (litContentType ++ (jsonStrL m.content_type ++
      (litId ++ (jsonStrL m.id ++ (litPrevHash ++ (jsonStrL m.prev_hash ++
        (litSeq ++ (intCanonL m.sequence ++ (litSession ++ (jsonStrL m.session_id ++
          (litTimestamp ++ (jsonStrL m.timestamp ++ litEnd)))))))))))))))))

/-- Canonical JSON of the full `msg.to_dict()`, `proof` key included
(an absent proof appears as `{}`).  These are the bytes the entry digest is
computed over. -/
def canonMsgL (m : Message) : List Char :=
  litAgentId ++ (jsonStrL m.agent_id ++ (litAgentRole ++ (jsonStrL m.agent_role ++
    (litContent ++ (jsonStrL m.content ++ (litContentType ++ (jsonStrL m.content_type ++
      (litId ++ (jsonStrL m.id ++ (litPrevHash ++ (jsonStrL m.prev_hash ++
        (litProof ++ (proofObjL m.proof ++
          (litSeq ++ (intCanonL m.sequence ++ (litSession ++ (jsonStrL m.session_id ++
            (litTimestamp ++ (jsonStrL m.timestamp ++ litEnd)))))))))))))))))))

/-- String form of the canonical signing payload. -/
def canonPayloadStr (m : Message) : String := String.mk (canonPayloadL m)

/-- String form of the canonical full serialization. -/
def canonMsgStr (m : Message) : String := String.mk (canonMsgL m)

/-! ## base64url, `ledger/core/encoding.py`

`b64url_encode` is `base64.urlsafe_b64encode` with the `=` padding stripped;
`b64url_decode` restores the padding and calls `base64.urlsafe_b64decode`.
The decoder below mirrors CPython's `binascii.a2b_base64` in its default
non-strict mode: characters outside the alphabet are skipped; a `=` is
counted only when at least two characters of the current quadruple have been
seen, the count resets on every data character, and the data finishes once
the quadruple position plus the count reaches four; a dangling quadruple at
the end of input is an error (`Option.none` here, an uncaught
`binascii.Error` in Python).  `urlsafe_b64decode` translates
`-`/`_` to `+`/`/` before decoding, so both alphabets are accepted. -/

def b64Char (n : Nat) : Char :=
  if n < 26 then Char.ofNat (65 + n)
  else if n < 52 then Char.ofNat (97 + (n - 26))
  else if n < 62 then Char.ofNat (48 + (n - 52))
  else if n = 62 then '-'
  else '_'

def b64CharVal (c : Char) : Option Nat :=
  if 65 ≤ c.toNat ∧ c.toNat ≤ 90 then some (c.toNat - 65)
  else if 97 ≤ c.toNat ∧ c.toNat ≤ 122 then some (c.toNat - 71)
  else if 48 ≤ c.toNat ∧ c.toNat ≤ 57 then some (c.toNat + 4)
  else if c = '-' ∨ c = '+' then some 62
  else if c = '_' ∨ c = '/' then some 63
  else none

/-- Encoding of a byte list into the url-safe alphabet, padding omitted
(the source strips it). -/
def b64EncodeL : List Nat → List Char
  | a :: b :: c :: rest =>
    b64Char (a / 4) :: b64Char ((a % 4) * 16 + b / 16) ::
      b64Char ((b % 16) * 4 + c / 64) :: b64Char (c % 64) :: b64EncodeL rest
  | [a, b] =>
    [b64Char (a / 4), b64Char ((a % 4) * 16 + b / 16), b64Char ((b % 16) * 4)]
  | [a] => [b64Char (a / 4), b64Char ((a % 4) * 16)]
  | [] => []

def b64url_encode (bs : List Nat) : String := String.mk (b64EncodeL bs)

/-- The decode loop, mirroring `binascii.a2b_base64` (non-strict): `qp` is the
position inside the current quadruple, `left` the pending bits, `pads` the
count of `=` seen since the last data character; bytes are emitted eagerly.
As in CPython, a `=` is counted only when at least two characters of the
current quadruple are present (the `&&` short-circuits past the increment
otherwise), the count is reset to zero on every data character, and the data
ends once the quadruple position plus the count reaches four. -/
def a2bBase64 : List Char → Nat → Nat → Nat → List Nat → Option (List Nat)
  | [], qp, _, _, out => if qp = 0 then some out else none
  | c :: rest, qp, left, pads, out =>
    if c = '=' then
      if 2 ≤ qp then
        if 4 ≤ qp + (pads + 1) then some out
        else a2bBase64 rest qp left (pads + 1) out
      else a2bBase64 rest qp left pads out
    else
      match b64CharVal c with
      | none => a2bBase64 rest qp left pads out
      | some v =>
        match qp with
        | 0 => a2bBase64 rest 1 v 0 out
        | 1 => a2bBase64 rest 2 (v % 16) 0 (out ++ [left * 4 + v / 16])
        | 2 => a2bBase64 rest 3 (v % 4) 0 (out ++ [left * 16 + v / 4])
        | _ => a2bBase64 rest 0 0 0 (out ++ [left * 64 + v])

/-- `b64url_decode`: restore `=` padding to a multiple of four characters,
then decode.  A non-ASCII argument raises in Python (`s.encode("ascii")`),
modelled by `none`. -/
def b64url_decode (s : String) : Option (List Nat) :=
  if s.data.any (fun c => 128 ≤ c.toNat) then none
  else
    let padded := s.data ++ List.replicate ((4 - s.data.length % 4) % 4) '='
    a2bBase64 padded 0 0 0 []

/-! ## Symbolic cryptography

`ledger/crypto/hashing.py` and `ledger/crypto/keys.py` are not among the
sources at hand (only their callers and the test suite are), so they are
modelled from the spec, §4.2 and §4.3, idealizing the primitives
symbolically as explained in the file header. -/

/-- Modelled from the spec: `ledger/crypto/hashing.py` is missing from the
sources.  Spec §4.2 and the glossary define the digest as
`lowercase_hex(SHA256(canonical_json(entry_with_proof_or_empty_object)))`.
SHA-256 is idealized as a perfectly collision-resistant function of the
canonical bytes; the idealization is the identity encoding of those bytes. -/
def sha256Hex (s : String) : String := s

/-- Modelled from the spec, §4.2: the entry digest used for chain linkage —
the proof IS included in the hashed bytes. -/
def message_hash (m : Message) : String := sha256Hex (canonMsgStr m)

/-- Fixed-width big-endian encoding of (the low 64 bits of) a `Nat` into
eight bytes. -/
def natToBytes8 (n : Nat) : List Nat :=
  [n / 72057594037927936 % 256, n / 281474976710656 % 256, n / 1099511627776 % 256,
   n / 4294967296 % 256, n / 16777216 % 256, n / 65536 % 256, n / 256 % 256, n % 256]

/-- UTF-8 encoding of a code point value (1–4 bytes). -/
def utf8Nat (n : Nat) : List Nat :=
  if n < 128 then [n]
  else if n < 2048 then [192 + n / 64, 128 + n % 64]
  else if n < 65536 then [224 + n / 4096, 128 + n / 64 % 64, 128 + n % 64]
  else [240 + n / 262144, 128 + n / 4096 % 64, 128 + n / 64 % 64, 128 + n % 64]

/-- UTF-8 encoding of one character. -/
def utf8Char (c : Char) : List Nat := utf8Nat c.toNat

/-- The UTF-8 bytes of a canonical JSON string, as returned by
`canonical_json` and handed to the signing and verifying primitives. -/
def strBytes (s : String) : List Nat := s.data.flatMap utf8Char

/-- Modelled from the spec: `ledger/crypto/keys.py` is missing from the
sources.  Spec §4.3: an Ed25519 keypair with `generate`, `sign_bytes`,
`verify_bytes`, `public_key_b64url`, `from_public_b64url`, `sign_entry`.
Symbolically a keypair is identified by a seed; signing is deterministic and
the signature determines the key and the message; verification recomputes
the signature.  `generate()` (fresh randomness) corresponds to choosing an
unused seed and is not needed by the claims. -/
structure AgentKeyPair where
  seed : Nat
deriving DecidableEq, Repr

/-- Symbolic `sign_bytes`: 64-byte Ed25519 signature idealized as an
injective function of key and message. -/
def AgentKeyPair.sign_bytes (k : AgentKeyPair) (msg : List Nat) : List Nat :=
  natToBytes8 k.seed ++ msg

/-- Symbolic public key bytes (the verifier recomputes signatures from them;
Dolev-Yao style, secrecy of the seed is irrelevant to the claims). -/
def AgentKeyPair.public_bytes (k : AgentKeyPair) : List Nat := natToBytes8 k.seed

def AgentKeyPair.public_key_b64url (k : AgentKeyPair) : String :=
  b64url_encode k.public_bytes

/-- `AgentKeyPair.from_public_b64url`: decode the base64url public key; a
malformed encoding or a wrong length raises in Python (caught by the
verifier's `try`), modelled by `none`. -/
def from_public_b64url (s : String) : Option (List Nat) :=
  match b64url_decode s with
  | none => none
  | some bs => if bs.length = 8 then some bs else none

/-- Verification against public key bytes: recompute-and-compare. -/
def verifyBytesPub (pub sig msg : List Nat) : Bool := sig == pub ++ msg

/-- `verify_bytes` of a keypair (used by the test suite): never throws,
returns `false` on mismatch. -/
def AgentKeyPair.verify_bytes (k : AgentKeyPair) (sig msg : List Nat) : Bool :=
  verifyBytesPub k.public_bytes sig msg

/-- Modelled from the spec, §4.3 `sign_entry`: build a proof with the given
`created` timestamp (the wall clock is passed explicitly here) and our public
key, and sign the canonical bytes of the entry's signing payload.  The signed
payload is the canonical JSON with the `proof` key removed — this is what the
verifier in `src` checks against (`verifier.py`, phase 3) and what
`tests/test_storage.py::test_tamper_detection` pins down. -/
def AgentKeyPair.sign_message (k : AgentKeyPair) (created : String) (m : Message) : Message :=
  { m with proof := some {
      type := "Ed25519Signature2020"
      created := created
      verification_method := k.public_key_b64url
      proof_purpose := "assertionMethod"
      proof_value := b64url_encode (k.sign_bytes (strBytes (canonPayloadStr m))) } }

/-! ## Verifier, `ledger/verify/verifier.py`

`LogVerifier.verify` runs three ordered phases over the chain, accumulating
failure records; phase 1 failures cause an early return before phases 2 and
3.  The `trusted_keys` dict is modelled as an association list (Python dict
keys are unique; `List.lookup` takes the first match).  The constructor's
non-emptiness check on `trusted_keys` is not needed by any claim and is left
out of the model. -/

structure VerificationFailure where
  index : Int
  message : String
  category : String := "general"
deriving DecidableEq, Repr

structure VerificationResult where
  is_valid : Bool
  message : String := ""
  failures : List VerificationFailure
deriving DecidableEq, Repr

abbrev TrustedKeys := List (String × String)

/-- Phase 1 (structure and session consistency) over the chain, `i` the
position of the head of the remaining list, `sid0` the first entry's session
id.  For each entry the session check, the sequence check and the
missing-proof check run in source order. -/
def structFailsAux (sid0 : String) (i : Nat) : List Message → List VerificationFailure
  | [] => []
  | m :: rest =>
    (if m.session_id = sid0 then []
     else [⟨(i : Int), "Session ID mismatch (expected " ++ sid0 ++ ", got " ++ m.session_id ++ ")", "session"⟩]) ++
    ((if m.sequence = (i : Int) then []
      else [⟨(i : Int), "Sequence number mismatch (expected " ++ toString i ++ ", got " ++ toString m.sequence ++ ")", "sequence"⟩]) ++
    ((match m.proof with
      | some _ => []
      | none => [⟨(i : Int), "Message missing proof/signature", "signature"⟩]) ++
    structFailsAux sid0 (i + 1) rest))

/-- Phase 1 failures of a chain. -/
def structFails : List Message → List VerificationFailure
  | [] => []
  | m0 :: rest => structFailsAux m0.session_id 0 (m0 :: rest)

/-- Phase 2 (hash chain integrity): for `i ≥ 1`,
`chain[i].prev_hash == message_hash(chain[i-1])`; `i` is the position of the
second element of the leading pair. -/
def hashFailsAux (i : Nat) : List Message → List VerificationFailure
  | a :: b :: rest =>
    (if b.prev_hash = message_hash a then []
     else [⟨(i : Int), "prev_hash does not match hash of previous message", "hash_chain"⟩]) ++
    hashFailsAux (i + 1) (b :: rest)
  | _ => []

def hashFails (chain : List Message) : List VerificationFailure := hashFailsAux 1 chain

/-- Phase 3 for one entry: build the canonical bytes of the entry without its
`proof` key, base64url-decode `proof_value` (an uncaught exception in the
source when malformed — the `Except.error` here), look the agent up in the
trust map, load the public key and verify (both inside `try`, a failure
becomes a failure record). -/
def sigCheckEntry (trusted : TrustedKeys) (i : Nat) (m : Message) : Except String (List VerificationFailure) :=
  match m.proof with
  | none => .error "AttributeError: NoneType has no attribute proof_value"
  | some p =>
    match b64url_decode p.proof_value with
    | none => .error "binascii.Error: invalid base64-encoded string"
    | some sig =>
      match List.lookup m.agent_id trusted with
      | none => .ok [⟨(i : Int), "No trusted public key found for agent " ++ m.agent_id, "signature"⟩]
      | some pub =>
        match from_public_b64url pub with
        | none => .ok [⟨(i : Int), "Failed to load trusted public key for " ++ m.agent_id, "signature"⟩]
        | some pubBytes =>
          if verifyBytesPub pubBytes sig (strBytes (canonPayloadStr m)) then .ok []
          else .ok [⟨(i : Int), "Signature verification failed", "signature"⟩]

/-- Phase 3 over the chain; a raised exception aborts the whole `verify`. -/
def sigFailsAux (trusted : TrustedKeys) (i : Nat) : List Message → Except String (List VerificationFailure)
  | [] => .ok []
  | m :: rest =>
    match sigCheckEntry trusted i m with
    | .error e => .error e
    | .ok fs =>
      match sigFailsAux trusted (i + 1) rest with
      | .error e => .error e
      | .ok rest2 => .ok (fs ++ rest2)

/-- `LogVerifier.verify`.  An empty chain is valid by convention.  Phase 1
failures return early (with the result's `message` still the empty-string
default).  Otherwise phases 2 and 3 both run in full and their failures are
reported together, phase 2's first. -/
def verify (trusted : TrustedKeys) (chain : List Message) : Except String VerificationResult :=
  match chain with
  | [] => .ok ⟨true, "Empty chain is considered valid", []⟩
  | _ :: _ =>
    let s := structFails chain
    if s.isEmpty then
      match sigFailsAux trusted 0 chain with
      | .error e => .error e
      | .ok g =>
        let fs := hashFails chain ++ g
        if fs.isEmpty then
          .ok ⟨true, "Chain of " ++ toString chain.length ++ " messages verified successfully", fs⟩
        else
          .ok ⟨false, "Chain verification failed with " ++ toString fs.length ++ " issues", fs⟩
    else .ok ⟨false, "", s⟩

/-! ## Python `json.dumps` escaping and a model of `json.loads`

The storage layer serializes the proof block with
`json.dumps(proof.__dict__, sort_keys=True, separators=(",", ":"))`, whose
default `ensure_ascii=True` escapes every character outside `0x20..0x7e` as
`\uxxxx` (surrogate pairs above `0xffff`), and reads rows back with
`json.loads`.  `json.loads` is modelled by a parser for flat JSON objects
whose values are strings or integers — the only shape this program ever
stores.  On other inputs the model returns `none` where Python may still
parse (nested objects, floats, lone surrogates, duplicate keys); no such
text is ever produced by the program and no claim depends on it. -/

def uEsc (n : Nat) : List Char :=
  ['\\', 'u', hexDigitChar (n / 4096 % 16), hexDigitChar (n / 256 % 16),
   hexDigitChar (n / 16 % 16), hexDigitChar (n % 16)]

/-- `json.dumps` escaping with `ensure_ascii=True`. -/
def escPy (c : Char) : List Char :=
  if c = '"' then ['\\', '"']
  else if c = '\\' then ['\\', '\\']
  else if c = Char.ofNat 8 then ['\\', 'b']
  else if c = Char.ofNat 9 then ['\\', 't']
  else if c = Char.ofNat 10 then ['\\', 'n']
  else if c = Char.ofNat 12 then ['\\', 'f']
  else if c = Char.ofNat 13 then ['\\', 'r']
  else if 32 ≤ c.toNat ∧ c.toNat ≤ 126 then [c]
  else if c.toNat < 65536 then uEsc c.toNat
  else uEsc (55296 + (c.toNat - 65536) / 1024) ++ uEsc (56320 + (c.toNat - 65536) % 1024)

/-- `json.dumps(p.__dict__, sort_keys=True, separators=(",", ":"))`. -/
def dumpsProof (p : Proof) : String := String.mk (proofObjWith escPy p)

def lbrace : Char := Char.ofNat 123
def rbrace : Char := Char.ofNat 125

def hexVal (c : Char) : Option Nat :=
  if 48 ≤ c.toNat ∧ c.toNat ≤ 57 then some (c.toNat - 48)
  else if 97 ≤ c.toNat ∧ c.toNat ≤ 102 then some (c.toNat - 87)
  else if 65 ≤ c.toNat ∧ c.toNat ≤ 70 then some (c.toNat - 55)
  else none

def hex4 (h1 h2 h3 h4 : Char) : Option Nat :=
  match hexVal h1, hexVal h2, hexVal h3, hexVal h4 with
  | some a, some b, some c, some d => some (((a * 16 + b) * 16 + c) * 16 + d)
  | _, _, _, _ => none

def escShort (e : Char) : Option Char :=
  if e = '"' then some '"'
  else if e = '\\' then some '\\'
  else if e = '/' then some '/'
  else if e = 'b' then some (Char.ofNat 8)
  else if e = 'f' then some (Char.ofNat 12)
  else if e = 'n' then some (Char.ofNat 10)
  else if e = 'r' then some (Char.ofNat 13)
  else if e = 't' then some (Char.ofNat 9)
  else none

/-- Parse a JSON string body (after the opening quote) up to the closing
quote, handling backslash escapes including `\uxxxx` and surrogate pairs.
Fuelled recursion; the fuel only needs to exceed the input length. -/
def parseStrBody : Nat → List Char → Option (List Char × List Char)
  | 0, _ => none
  | _, [] => none
  | fuel + 1, c :: rest =>
    if c = '"' then some ([], rest)
    else if c = '\\' then
      match rest with
      | [] => none
      | e :: rest2 =>
        if e = 'u' then
          match rest2 with
          | h1 :: h2 :: h3 :: h4 :: rest3 =>
            match hex4 h1 h2 h3 h4 with
            | none => none
            | some n =>
              if n < 55296 ∨ 57343 < n then
                (parseStrBody fuel rest3).map (fun sr => (Char.ofNat n :: sr.1, sr.2))
              else if n < 56320 then
                match rest3 with
                | '\\' :: 'u' :: g1 :: g2 :: g3 :: g4 :: rest4 =>
                  match hex4 g1 g2 g3 g4 with
                  | none => none
                  | some n2 =>
                    if 56320 ≤ n2 ∧ n2 ≤ 57343 then
                      (parseStrBody fuel rest4).map
                        (fun sr => (Char.ofNat (65536 + (n - 55296) * 1024 + (n2 - 56320)) :: sr.1, sr.2))
                    else none
                | _ => none
              else none
          | _ => none
        else
          match escShort e with
          | none => none
          | some d => (parseStrBody fuel rest2).map (fun sr => (d :: sr.1, sr.2))
    else (parseStrBody fuel rest).map (fun sr => (c :: sr.1, sr.2))

/-- A JSON scalar as stored by this program: string or integer. -/
inductive JVal where
  | s (v : String)
  | i (v : Int)
deriving DecidableEq, Repr

def isDigitC (c : Char) : Bool := 48 ≤ c.toNat && c.toNat ≤ 57

def digitsVal (ds : List Char) : Nat := ds.foldl (fun a c => a * 10 + (c.toNat - 48)) 0

/-- Parse an integer token (optional minus, maximal run of digits). -/
def parseIntTok : List Char → Option (Int × List Char)
  | '-' :: cs =>
    let ds := cs.takeWhile isDigitC
    if ds.isEmpty then none else some (-(digitsVal ds : Int), cs.dropWhile isDigitC)
  | cs =>
    let ds := cs.takeWhile isDigitC
    if ds.isEmpty then none else some ((digitsVal ds : Int), cs.dropWhile isDigitC)

def parseJVal (fuel : Nat) : List Char → Option (JVal × List Char)
  | '"' :: rest => (parseStrBody fuel rest).map (fun sr => (JVal.s (String.mk sr.1), sr.2))
  | cs => (parseIntTok cs).map (fun nr => (JVal.i nr.1, nr.2))

/-- Parse the `"key":value` pairs of a flat object after its `\x7b`, the
trailing `\x7d` ending exactly at the end of input (canonical text has no
whitespace; `json.loads` on text with trailing garbage raises). -/
def parseFieldsAux : Nat → List Char → List (String × JVal) → Option (List (String × JVal))
  | 0, _, _ => none
  | fuel + 1, cs, acc =>
    match cs with
    | '"' :: rest =>
      match parseStrBody (rest.length + 1) rest with
      | none => none
      | some (key, rest2) =>
        match rest2 with
        | ':' :: rest3 =>
          match parseJVal (rest3.length + 1) rest3 with
          | none => none
          | some (v, rest4) =>
            match rest4 with
            | ',' :: rest5 => parseFieldsAux fuel rest5 (acc ++ [(String.mk key, v)])
            | d :: rest6 =>
              if d = rbrace ∧ rest6 = [] then some (acc ++ [(String.mk key, v)]) else none
            | [] => none
        | _ => none
    | _ => none

/-- Model of `json.loads` restricted to flat string/integer objects. -/
def parseFlat (s : String) : Option (List (String × JVal)) :=
  match s.data with
  | c :: rest =>
    if c = lbrace then
      if rest = [rbrace] then some []
      else parseFieldsAux (rest.length + 1) rest []
    else none
  | [] => none

def proofKeys : List String :=
  ["created", "proof_purpose", "proof_value", "type", "verification_method"]

def lookupStr (k : String) (kvs : List (String × JVal)) : Option String :=
  match List.lookup k kvs with
  | some (JVal.s v) => some v
  | _ => none

/-- `Proof(**json.loads(pjson))`: parse, require every key to be a known
dataclass field (an unexpected key raises `TypeError`), fill missing fields
with the dataclass defaults. -/
def loadsProof (s : String) : Option Proof :=
  match parseFlat s with
  | none => none
  | some kvs =>
    if kvs.all (fun kv => proofKeys.contains kv.1 && (match kv.2 with | JVal.s _ => true | JVal.i _ => false)) then
      some {
        type := (lookupStr "type" kvs).getD "Ed25519Signature2020"
        created := (lookupStr "created" kvs).getD ""
        verification_method := (lookupStr "verification_method" kvs).getD ""
        proof_purpose := (lookupStr "proof_purpose" kvs).getD "assertionMethod"
        proof_value := (lookupStr "proof_value" kvs).getD "" }
    else none

/-! ## Storage, `ledger/storage/sqlite.py`

One table `messages` with primary key `(session_id, sequence)`, modelled as a
list of rows in insertion order; `INSERT OR IGNORE` skips a row whose primary
key is already present; `ORDER BY sequence ASC` is a stable sort on
`sequence`.  A closed storage (`conn = None`) raises
"Storage connection is closed" on every operation. -/

structure Row where
  session_id : String
  sequence : Int
  prev_hash : String
  message_hash : String
  timestamp : String
  agent_id : String
  agent_role : String
  canonical_json : String
  proof_json : String
deriving DecidableEq, Repr

abbrev DB := List Row

def samePK (r1 r2 : Row) : Bool :=
  r1.session_id == r2.session_id && r1.sequence == r2.sequence

/-- `INSERT OR IGNORE INTO messages ...`. -/
def insertRow (d : DB) (r : Row) : DB :=
  if d.any (samePK r) then d else d ++ [r]

/-- The row `SQLiteStorage.append` builds for a signed message `m` with proof
`p`: the `canonical_json` column holds the canonical payload without the
`proof` key, `proof_json` the `json.dumps` of the proof's field dict,
`message_hash` the digest including the proof. -/
def rowOf (m : Message) (p : Proof) : Row :=
  { session_id := m.session_id, sequence := m.sequence, prev_hash := m.prev_hash,
    message_hash := message_hash m, timestamp := m.timestamp, agent_id := m.agent_id,
    agent_role := m.agent_role, canonical_json := canonPayloadStr m,
    proof_json := dumpsProof p }

structure SQLiteStorage where
  conn : Option DB
deriving DecidableEq, Repr

/-- `SQLiteStorage.append`: reject unsigned messages, then
`INSERT OR IGNORE` the row (auto-committed). -/
def SQLiteStorage.append (st : SQLiteStorage) (m : Message) : Except String SQLiteStorage :=
  match m.proof with
  | none => .error "Cannot persist unsigned message"
  | some p =>
    match st.conn with
    | none => .error "Storage connection is closed"
    | some d => .ok ⟨some (insertRow d (rowOf m p))⟩

/-- Reconstruction of one loaded row into a `Message`
(`SQLiteStorage.load_messages` body): `id`, `content` and (with default
`"text/plain"`) `content_type` come from parsing the `canonical_json`
column, the proof from parsing `proof_json`, everything else from its own
column; `session_id` is the query argument.  Parse failures model the
exceptions `json.loads` / `Proof(**...)` / `payload["id"]` raise; a non-string
`id` or `content` would build an ill-typed `Message` in Python and is
declined here (no row written by this program has one). -/
def rowToMsg (sid : String) (r : Row) : Except String Message :=
  match parseFlat r.canonical_json with
  | none => .error "json.decoder.JSONDecodeError"
  | some kvs =>
    match loadsProof r.proof_json with
    | none => .error "TypeError: Proof() argument error"
    | some proof =>
      match lookupStr "id" kvs, lookupStr "content" kvs with
      | some idv, some contentv =>
        match (match List.lookup "content_type" kvs with
               | some (JVal.s v) => some v
               | none => some "text/plain"
               | some (JVal.i _) => none) with
        | none => .error "TypeError: content_type"
        | some ctv =>
          .ok { id := idv, timestamp := r.timestamp, session_id := sid,
                sequence := r.sequence, agent_id := r.agent_id,
                agent_role := r.agent_role, content := contentv,
                content_type := ctv, prev_hash := r.prev_hash, proof := some proof }
      | _, _ => .error "KeyError"

/-- `SELECT ... WHERE session_id = ? ORDER BY sequence ASC` and row
reconstruction. -/
def parseRows (d : DB) (sid : String) : Except String (List Message) :=
  (List.insertionSort (fun a b => a.sequence ≤ b.sequence)
      (d.filter (fun r => r.session_id == sid))).mapM (rowToMsg sid)

/-- The defense-in-depth loop after loading: for every message with
`sequence > 0`, compare its `prev_hash` with the recomputed hash of
`loaded[msg.sequence - 1]`; an out-of-range index raises `IndexError`
("list index out of range"), a mismatch raises
"Chain broken at sequence N". -/
def chainGuard (loaded : List Message) : List Message → Except String (List Message)
  | [] => .ok loaded
  | msg :: rest =>
    if msg.sequence > 0 then
      match loaded[(msg.sequence - 1).toNat]? with
      | none => .error "list index out of range"
      | some prev =>
        if msg.prev_hash = message_hash prev then chainGuard loaded rest
        else .error ("Chain broken at sequence " ++ toString msg.sequence)
    else chainGuard loaded rest

/-- `SQLiteStorage.load_messages` on an open database. -/
def loadMessagesDB (d : DB) (sid : String) : Except String (List Message) :=
  match parseRows d sid with
  | .error e => .error e
  | .ok loaded => chainGuard loaded loaded

def SQLiteStorage.load_messages (st : SQLiteStorage) (sid : String) : Except String (List Message) :=
  match st.conn with
  | none => .error "Storage connection is closed"
  | some d => loadMessagesDB d sid

/-- `SQLiteStorage.close()`. -/
def SQLiteStorage.close (_st : SQLiteStorage) : SQLiteStorage := ⟨none⟩

/-! ## Verifier entry point over storage

`LogVerifier.verify_from_storage` is called by the test suite and the CLI
but its definition is not among the sources at hand. -/

/-- Modelled from the spec: `verify_from_storage` is absent from
`src/ledger/verify/verifier.py` (only its callers are present).  Spec §4.6:
"loads the chain via C6 and applies `verify`.  Load failures produce a
single failure record at index `-1`, category `storage`." -/
def verify_from_storage (trusted : TrustedKeys) (sid : String) (st : SQLiteStorage) :
    Except String VerificationResult :=
  match st.load_messages sid with
  | .error e => .ok ⟨false, "Failed to load chain from storage", [⟨-1, e, "storage"⟩]⟩
  | .ok chain => verify trusted chain

/-! ## Session, `ledger/chain/session.py` -/

structure ConversationSession where
  session_id : String
  messages : List Message
  storage : Option SQLiteStorage
deriving DecidableEq, Repr

/-- `ConversationSession.__post_init__` for a session constructed with an
empty message list: if storage is provided, load existing entries; a load
error is caught, a warning is printed and the message list stays empty. -/
def ConversationSession.mk_init (sid : String) (storage : Option SQLiteStorage) : ConversationSession :=
  match storage with
  | none => ⟨sid, [], none⟩
  | some st =>
    match st.load_messages sid with
    | .ok loaded => ⟨sid, loaded, some st⟩
    | .error _ => ⟨sid, [], some st⟩

/-- Python `agent_id[-6:]`. -/
def lastSix (s : String) : String := String.mk (s.data.drop (s.data.length - 6))

/-- Python f-string `{n:04d}` for a natural number. -/
def pad4 (n : Nat) : String :=
  String.mk (List.replicate (4 - (toString n).data.length) '0' ++ (toString n).data)

/-- `ConversationSession.append`: compute `prev_hash` from the in-memory
tail, build the unsigned entry with `sequence = current length`, sign it
(`created` is the signing clock, passed explicitly), append it in memory,
then persist; a storage failure is caught and only warned about — the
in-memory append is not rolled back.  Returns the updated session and the
signed message (the source mutates `self` and returns the message). -/
def ConversationSession.append (s : ConversationSession) (content role : String)
    (signer : AgentKeyPair) (agent_id timestamp created content_type : String) :
    ConversationSession × Message :=
  let prev_hash := match s.messages.getLast? with
    | some last => message_hash last
    | none => ""
  let unsigned : Message := {
    id := "msg-" ++ pad4 s.messages.length ++ "-" ++ lastSix agent_id,
    timestamp := timestamp, session_id := s.session_id,
    sequence := (s.messages.length : Int), agent_id := agent_id,
    agent_role := role, content := content, content_type := content_type,
    prev_hash := prev_hash, proof := none }
  let signed := signer.sign_message created unsigned
  let msgs := s.messages ++ [signed]
  match s.storage with
  | none => (⟨s.session_id, msgs, none⟩, signed)
  | some st =>
    match st.append signed with
    | .ok st2 => (⟨s.session_id, msgs, some st2⟩, signed)
    | .error _ => (⟨s.session_id, msgs, some st⟩, signed)

/-! ## Proof devices and claim-level definitions

`unescJ` (a left inverse of the JCS escape) and `structOk` (a pointwise
reformulation of phase 1) are devices used by the proofs below, not models of
source code.  `FieldMut` enumerates the field mutations named by the
tamper-evidence property; `firstBreak` names the first entry of a list whose
`prev_hash` does not match the recomputed digest of its predecessor. -/

def unescJ : List Char → Option (List Char)
  | [] => some []
  | c :: rest =>
    if c = '\\' then
      match rest with
      | [] => none
      | e :: rest2 =>
        if e = 'u' then
          match rest2 with
          | h1 :: h2 :: h3 :: h4 :: rest3 =>
            match hex4 h1 h2 h3 h4 with
            | none => none
            | some n =>
              if n < 55296 then (unescJ rest3).map (fun l => Char.ofNat n :: l) else none
          | _ => none
        else
          match escShort e with
          | none => none
          | some d => (unescJ rest2).map (fun l => d :: l)
    else (unescJ rest).map (fun l => c :: l)

/-- Pointwise reformulation of phase 1 (a proof device). -/
def structOk (sid0 : String) : Nat → List Message → Prop
  | _, [] => True
  | i, m :: rest =>
    (m.session_id = sid0 ∧ m.sequence = (i : Int) ∧ m.proof ≠ none) ∧ structOk sid0 (i + 1) rest

/-- A mutation of a single field of an entry: one of the eight entry fields
named by the tamper-evidence property, or one of the five proof fields. -/
inductive FieldMut where
  | mContent (v : String)
  | mTimestamp (v : String)
  | mSession (v : String)
  | mSequence (v : Int)
  | mAgentId (v : String)
  | mAgentRole (v : String)
  | mContentType (v : String)
  | mPrevHash (v : String)
  | pType (v : String)
  | pCreated (v : String)
  | pVerifMethod (v : String)
  | pPurpose (v : String)
  | pValue (v : String)
deriving DecidableEq, Repr

/-- Whether the mutation targets a field of the proof block. -/
def FieldMut.isProofField : FieldMut → Bool
  | .pType _ | .pCreated _ | .pVerifMethod _ | .pPurpose _ | .pValue _ => true
  | _ => false

/-- Apply a field mutation to an entry (a proof-field mutation of an unsigned
entry leaves it unchanged). -/
def applyMut : FieldMut → Message → Message
  | .mContent v, m => { m with content := v }
  | .mTimestamp v, m => { m with timestamp := v }
  | .mSession v, m => { m with session_id := v }
  | .mSequence v, m => { m with sequence := v }
  | .mAgentId v, m => { m with agent_id := v }
  | .mAgentRole v, m => { m with agent_role := v }
  | .mContentType v, m => { m with content_type := v }
  | .mPrevHash v, m => { m with prev_hash := v }
  | .pType v, m => match m.proof with
    | some p => { m with proof := some { p with type := v } }
    | none => m
  | .pCreated v, m => match m.proof with
    | some p => { m with proof := some { p with created := v } }
    | none => m
  | .pVerifMethod v, m => match m.proof with
    | some p => { m with proof := some { p with verification_method := v } }
    | none => m
  | .pPurpose v, m => match m.proof with
    | some p => { m with proof := some { p with proof_purpose := v } }
    | none => m
  | .pValue v, m => match m.proof with
    | some p => { m with proof := some { p with proof_value := v } }
    | none => m

/-- The sequence number of the first loaded entry whose `prev_hash` differs
from the recomputed digest of the entry before it. -/
def firstBreak : List Message → Option Int
  | a :: b :: rest =>
    if b.prev_hash = message_hash a then firstBreak (b :: rest) else some b.sequence
  | _ => none

instance {ε α : Type} [DecidableEq ε] [DecidableEq α] : DecidableEq (Except ε α) := fun a b =>
  match a, b with
  | .error e1, .error e2 =>
    if h : e1 = e2 then .isTrue (by rw [h]) else .isFalse (fun he => h (Except.error.inj he))
  | .error _, .ok _ => .isFalse (fun h => Except.noConfusion h)
  | .ok _, .error _ => .isFalse (fun h => Except.noConfusion h)
  | .ok x, .ok y =>
    if h : x = y then .isTrue (by rw [h]) else .isFalse (fun he => h (Except.ok.inj he))

/-! Concrete instances used by the witnesses and counterexamples. -/

def wKey : AgentKeyPair := ⟨1⟩

def wTrusted : TrustedKeys := [("a", wKey.public_key_b64url)]

def wMsg0 : Message :=
  { id := "msg-0000-a", timestamp := "t0", session_id := "s", sequence := 0,
    agent_id := "a", agent_role := "user", content := "x",
    content_type := "text/plain", prev_hash := "", proof := none }

def wEnt0 : Message := wKey.sign_message "c0" wMsg0

/-- A small proof block (storage accepts any non-`None` proof). -/
def wProofSmall : Proof :=
  { type := "Ed25519Signature2020", created := "c", verification_method := "v",
    proof_purpose := "assertionMethod", proof_value := "zz" }

/-- A signed-looking entry with a small proof, for storage-level witnesses. -/
def wEntSmall : Message := { wMsg0 with proof := some wProofSmall }

/-- Rows of a stored two-entry chain whose second link is broken (the loader
checks only linkage, not signatures, so small proofs suffice). -/
def wRow0 : Row := rowOf wEntSmall wProofSmall

def wMsgB1 : Message :=
  { id := "msg-0001-a", timestamp := "t1", session_id := "s", sequence := 1,
    agent_id := "a", agent_role := "assistant", content := "y",
    content_type := "text/plain", prev_hash := "bad", proof := some wProofSmall }

def wRowB1 : Row := rowOf wMsgB1 wProofSmall

def wDBBroken : DB := [wRow0, wRowB1]

/-- A single stored row with sequence `2`: the loader's predecessor lookup
indexes out of bounds. -/
def wRowSolo : Row := { (rowOf wEntSmall wProofSmall) with sequence := 2 }

/-- A well-linked stored two-entry chain: the second row's `prev_hash` is the
digest of the first row as reloaded. -/
def wLoaded0 : Message := { wMsg0 with timestamp := "t0", proof := some wProofSmall }

def wMsgG1 : Message :=
  { id := "msg-0001-a", timestamp := "t1", session_id := "s", sequence := 1,
    agent_id := "a", agent_role := "assistant", content := "y",
    content_type := "text/plain", prev_hash := message_hash wLoaded0,
    proof := some wProofSmall }

def wRowG1 : Row := rowOf wMsgG1 wProofSmall

def wDBGood : DB := [wRow0, wRowG1]

/-- Entry whose `proof_value` is not well-formed base64url (one data
character cannot follow a multiple of four). -/
def wEntBadB64 : Message :=
  { wMsg0 with proof := some { wProofSmall with proof_value := "A" } }

/-- A session over a closed storage connection: every persistence attempt
fails with "Storage connection is closed". -/
def wSessClosed : ConversationSession := ⟨"s", [], some ⟨none⟩⟩

/-- The result of appending one message to `wSessClosed`. -/
def wAppended : ConversationSession × Message :=
  wSessClosed.append "x" "user" wKey "a" "t0" "c0" "text/plain"

/-! ## Injectivity of the canonical serialization -/

theorem hexVal_hexDigitChar : ∀ n, n < 16 → hexVal (hexDigitChar n) = some n := by decide

theorem unescJ_escJCS (c : Char) (t : List Char) :
    unescJ (escJCS c ++ t) = (unescJ t).map (fun l => c :: l) := by
  by_cases h1 : c = '"'
  · subst h1; simp +decide [escJCS]; rw [unescJ.eq_def]; simp +decide [escShort]
  by_cases h2 : c = '\\'
  · subst h2; simp +decide [escJCS]; rw [unescJ.eq_def]; simp +decide [escShort]
  by_cases h3 : c = Char.ofNat 8
  · subst h3; simp +decide [escJCS]; rw [unescJ.eq_def]; simp +decide [escShort]
  by_cases h4 : c = Char.ofNat 9
  · subst h4; simp +decide [escJCS]; rw [unescJ.eq_def]; simp +decide [escShort]
  by_cases h5 : c = Char.ofNat 10
  · subst h5; simp +decide [escJCS]; rw [unescJ.eq_def]; simp +decide [escShort]
  by_cases h6 : c = Char.ofNat 12
  · subst h6; simp +decide [escJCS]; rw [unescJ.eq_def]; simp +decide [escShort]
  by_cases h7 : c = Char.ofNat 13
  · subst h7; simp +decide [escJCS]; rw [unescJ.eq_def]; simp +decide [escShort]
  by_cases h8 : c.toNat < 32
  · have e1 := hexVal_hexDigitChar (c.toNat / 16) (by omega)
    have e2 := hexVal_hexDigitChar (c.toNat % 16) (by omega)
    simp only [escJCS, if_neg h1, if_neg h2, if_neg h3, if_neg h4, if_neg h5, if_neg h6,
      if_neg h7, if_pos h8, List.cons_append, List.nil_append]
    rw [unescJ.eq_def]
    have h0 : hexVal '0' = some 0 := by decide
    have hn : ((0 * 16 + 0) * 16 + c.toNat / 16) * 16 + c.toNat % 16 = c.toNat := by omega
    have hx : hex4 '0' '0' (hexDigitChar (c.toNat / 16)) (hexDigitChar (c.toNat % 16)) = some c.toNat := by
      simp only [hex4, h0, e1, e2, hn]
    simp only [if_true, hx]
    have hlt : c.toNat < 55296 := by omega
    rw [if_pos hlt, Char.ofNat_toNat]
  · simp only [escJCS, if_neg h1, if_neg h2, if_neg h3, if_neg h4, if_neg h5, if_neg h6,
      if_neg h7, if_neg h8, List.cons_append, List.nil_append]
    rw [unescJ.eq_def]
    simp only [if_neg h2]

theorem unescJ_flatMap (s : List Char) : unescJ (s.flatMap escJCS) = some s := by
  induction s with
  | nil => rfl
  | cons c s ih => rw [List.flatMap_cons, unescJ_escJCS, ih]; rfl

theorem escJCS_flatMap_inj {a b : List Char}
    (h : a.flatMap escJCS = b.flatMap escJCS) : a = b := by
  have ha := unescJ_flatMap a
  have hb := unescJ_flatMap b
  rw [h, hb] at ha
  exact (Option.some.inj ha).symm

theorem jsonStrL_inj {a b : String} (h : jsonStrL a = jsonStrL b) : a = b := by
  simp only [jsonStrL, strWith] at h
  have h2 := List.append_cancel_right (List.tail_eq_of_cons_eq h)
  exact congrArg String.mk (escJCS_flatMap_inj h2)

/-! One-field variation lemmas: two messages that agree on every field except
one have distinct canonical serializations.  The common prefix and suffix are
cancelled and `jsonStrL_inj` finishes. -/

theorem canonPayload_agent_id_inj {m : Message} {v : String}
    (h : canonPayloadL { m with agent_id := v } = canonPayloadL m) : v = m.agent_id := by
  cases m
  simp only [canonPayloadL] at h
  iterate 1 replace h := List.append_cancel_left h
  exact jsonStrL_inj (List.append_cancel_right h)

theorem canonPayload_agent_role_inj {m : Message} {v : String}
    (h : canonPayloadL { m with agent_role := v } = canonPayloadL m) : v = m.agent_role := by
  cases m
  simp only [canonPayloadL] at h
  iterate 3 replace h := List.append_cancel_left h
  exact jsonStrL_inj (List.append_cancel_right h)

theorem canonPayload_content_inj {m : Message} {v : String}
    (h : canonPayloadL { m with content := v } = canonPayloadL m) : v = m.content := by
  cases m
  simp only [canonPayloadL] at h
  iterate 5 replace h := List.append_cancel_left h
  exact jsonStrL_inj (List.append_cancel_right h)

theorem canonPayload_content_type_inj {m : Message} {v : String}
    (h : canonPayloadL { m with content_type := v } = canonPayloadL m) : v = m.content_type := by
  cases m
  simp only [canonPayloadL] at h
  iterate 7 replace h := List.append_cancel_left h
  exact jsonStrL_inj (List.append_cancel_right h)

theorem canonPayload_prev_hash_inj {m : Message} {v : String}
    (h : canonPayloadL { m with prev_hash := v } = canonPayloadL m) : v = m.prev_hash := by
  cases m
  simp only [canonPayloadL] at h
  iterate 11 replace h := List.append_cancel_left h
  exact jsonStrL_inj (List.append_cancel_right h)

theorem canonPayload_session_id_inj {m : Message} {v : String}
    (h : canonPayloadL { m with session_id := v } = canonPayloadL m) : v = m.session_id := by
  cases m
  simp only [canonPayloadL] at h
  iterate 15 replace h := List.append_cancel_left h
  exact jsonStrL_inj (List.append_cancel_right h)

theorem canonPayload_timestamp_inj {m : Message} {v : String}
    (h : canonPayloadL { m with timestamp := v } = canonPayloadL m) : v = m.timestamp := by
  cases m
  simp only [canonPayloadL] at h
  iterate 17 replace h := List.append_cancel_left h
  exact jsonStrL_inj (List.append_cancel_right h)

theorem canonMsg_proof_inj {m : Message} {op : Option Proof}
    (h : canonMsgL { m with proof := op } = canonMsgL m) : proofObjL op = proofObjL m.proof := by
  cases m
  simp only [canonMsgL] at h
  iterate 13 replace h := List.append_cancel_left h
  exact List.append_cancel_right h

theorem proofObj_created_inj {p : Proof} {v : String}
    (h : proofObjWith escJCS { p with created := v } = proofObjWith escJCS p) : v = p.created := by
  cases p
  simp only [proofObjWith, strWith] at h
  iterate 1 replace h := List.append_cancel_left h
  exact jsonStrL_inj (List.append_cancel_right h)

theorem proofObj_proof_purpose_inj {p : Proof} {v : String}
    (h : proofObjWith escJCS { p with proof_purpose := v } = proofObjWith escJCS p) : v = p.proof_purpose := by
  cases p
  simp only [proofObjWith, strWith] at h
  iterate 3 replace h := List.append_cancel_left h
  exact jsonStrL_inj (List.append_cancel_right h)

theorem proofObj_proof_value_inj {p : Proof} {v : String}
    (h : proofObjWith escJCS { p with proof_value := v } = proofObjWith escJCS p) : v = p.proof_value := by
  cases p
  simp only [proofObjWith, strWith] at h
  iterate 5 replace h := List.append_cancel_left h
  exact jsonStrL_inj (List.append_cancel_right h)

theorem proofObj_type_inj {p : Proof} {v : String}
    (h : proofObjWith escJCS { p with type := v } = proofObjWith escJCS p) : v = p.type := by
  cases p
  simp only [proofObjWith, strWith] at h
  iterate 7 replace h := List.append_cancel_left h
  exact jsonStrL_inj (List.append_cancel_right h)

theorem proofObj_verification_method_inj {p : Proof} {v : String}
    (h : proofObjWith escJCS { p with verification_method := v } = proofObjWith escJCS p) :
    v = p.verification_method := by
  cases p
  simp only [proofObjWith, strWith] at h
  iterate 9 replace h := List.append_cancel_left h
  exact jsonStrL_inj (List.append_cancel_right h)

/-- The bytes the verifier checks signatures over (proof key removed) and the
bytes the spec describes (proof replaced by `\x7b\x7d`) always differ: the
latter is eleven characters longer. -/
theorem canonPayload_ne_canonEmptyProof (m : Message) :
    canonPayloadStr m ≠ canonMsgStr { m with proof := none } := by
  intro h
  have hlen := congrArg (fun s : String => s.data.length) h
  cases m
  simp only [canonPayloadStr, canonMsgStr, canonPayloadL, canonMsgL, proofObjL,
    List.length_append] at hlen
  simp only [litProof, litEmptyObj] at hlen
  norm_num at hlen
  omega

/-! ## UTF-8 is a prefix code; `strBytes` is injective -/

theorem char_toNat_inj {a b : Char} (h : a.toNat = b.toNat) : a = b := by
  apply Char.ext
  exact UInt32.toNat.inj h

theorem char_toNat_lt (c : Char) : c.toNat < 1114112 := by
  have h := c.valid
  rcases h with h | ⟨_, h2⟩
  · have : c.val.toNat < 55296 := h
    simp only [Char.toNat]; omega
  · have : c.val.toNat < 1114112 := h2
    simp only [Char.toNat]; omega

theorem utf8Nat_append_inj {n1 n2 : Nat} {r1 r2 : List Nat}
    (hv1 : n1 < 1114112) (hv2 : n2 < 1114112)
    (h : utf8Nat n1 ++ r1 = utf8Nat n2 ++ r2) : n1 = n2 ∧ r1 = r2 := by
  unfold utf8Nat at h
  split_ifs at h <;>
    simp only [List.cons_append, List.nil_append, List.cons.injEq] at h <;>
    (have e1 := h.1
     have h2 := h.2
     try have e2 := h2.1
     try have h3 := h2.2
     try have e3 := h3.1
     try have h4 := h3.2
     try have e4 := h4.1
     try have h5 := h4.2
     refine ⟨by omega, ?_⟩
     first
       | assumption
       | (exfalso; omega))

theorem utf8Char_append_inj {c1 c2 : Char} {r1 r2 : List Nat}
    (h : utf8Char c1 ++ r1 = utf8Char c2 ++ r2) : c1 = c2 ∧ r1 = r2 := by
  have := utf8Nat_append_inj (char_toNat_lt c1) (char_toNat_lt c2) h
  exact ⟨char_toNat_inj this.1, this.2⟩

theorem utf8Nat_ne_nil (n : Nat) : utf8Nat n ≠ [] := by
  unfold utf8Nat
  by_cases h1 : n < 128 <;> by_cases h2 : n < 2048 <;> by_cases h3 : n < 65536 <;>
    simp [h1, h2, h3]

theorem utf8Char_ne_nil (c : Char) : utf8Char c ≠ [] := utf8Nat_ne_nil c.toNat

theorem utf8_flatMap_inj : ∀ {l1 l2 : List Char},
    l1.flatMap utf8Char = l2.flatMap utf8Char → l1 = l2 := by
  intro l1
  induction l1 with
  | nil =>
    intro l2 h
    cases l2 with
    | nil => rfl
    | cons d l2 =>
      rw [List.flatMap_nil, List.flatMap_cons] at h
      cases he : utf8Char d with
      | nil => exact absurd he (utf8Char_ne_nil d)
      | cons x xs => rw [he] at h; simp at h
  | cons c l1 ih =>
    intro l2 h
    cases l2 with
    | nil =>
      rw [List.flatMap_nil, List.flatMap_cons] at h
      cases he : utf8Char c with
      | nil => exact absurd he (utf8Char_ne_nil c)
      | cons x xs => rw [he] at h; simp at h
    | cons d l2 =>
      rw [List.flatMap_cons, List.flatMap_cons] at h
      obtain ⟨hc, hr⟩ := utf8Char_append_inj h
      rw [hc, ih hr]

theorem strBytes_inj {a b : String} (h : strBytes a = strBytes b) : a = b :=
  congrArg String.mk (utf8_flatMap_inj h)

theorem utf8Char_lt_256 (c : Char) : ∀ x ∈ utf8Char c, x < 256 := by
  have hv := char_toNat_lt c
  intro x hx
  simp only [utf8Char] at hx
  unfold utf8Nat at hx
  by_cases h1 : c.toNat < 128 <;> by_cases h2 : c.toNat < 2048 <;>
    by_cases h3 : c.toNat < 65536 <;>
    simp only [h1, h2, h3, if_true, if_false, ite_true, ite_false,
      List.mem_cons, List.not_mem_nil, or_false] at hx <;>
    rcases hx with h | h | h | h <;> omega

theorem natToBytes8_lt_256 (n : Nat) : ∀ x ∈ natToBytes8 n, x < 256 := by
  intro x hx
  simp only [natToBytes8, List.mem_cons, List.not_mem_nil, or_false] at hx
  rcases hx with h | h | h | h | h | h | h | h <;>
    (subst h; exact Nat.mod_lt _ (by norm_num))

theorem strBytes_lt_256 (s : String) : ∀ x ∈ strBytes s, x < 256 := by
  intro x hx
  simp only [strBytes, List.mem_flatMap] at hx
  obtain ⟨c, _, hc⟩ := hx
  exact utf8Char_lt_256 c x hc

/-! ## base64url: decode is a left inverse of encode on byte lists -/

theorem b64CharVal_b64Char : ∀ n, n < 64 → b64CharVal (b64Char n) = some n := by decide

theorem b64Char_ne_pad : ∀ n, n < 64 → ¬ b64Char n = '=' := by decide

theorem b64Char_toNat_lt : ∀ n, n < 64 → (b64Char n).toNat < 128 := by decide

theorem a2b_step0 (v : Nat) (hv : v < 64) (rest : List Char) (left pads : Nat) (out : List Nat) :
    a2bBase64 (b64Char v :: rest) 0 left pads out = a2bBase64 rest 1 v 0 out := by
  rw [a2bBase64.eq_def]
  simp only [if_neg (b64Char_ne_pad v hv), b64CharVal_b64Char v hv]

theorem a2b_step1 (v : Nat) (hv : v < 64) (rest : List Char) (left pads : Nat) (out : List Nat) :
    a2bBase64 (b64Char v :: rest) 1 left pads out =
      a2bBase64 rest 2 (v % 16) 0 (out ++ [left * 4 + v / 16]) := by
  rw [a2bBase64.eq_def]
  simp only [if_neg (b64Char_ne_pad v hv), b64CharVal_b64Char v hv]

theorem a2b_step2 (v : Nat) (hv : v < 64) (rest : List Char) (left pads : Nat) (out : List Nat) :
    a2bBase64 (b64Char v :: rest) 2 left pads out =
      a2bBase64 rest 3 (v % 4) 0 (out ++ [left * 16 + v / 4]) := by
  rw [a2bBase64.eq_def]
  simp only [if_neg (b64Char_ne_pad v hv), b64CharVal_b64Char v hv]

theorem a2b_step3 (v : Nat) (hv : v < 64) (rest : List Char) (left pads : Nat) (out : List Nat) :
    a2bBase64 (b64Char v :: rest) 3 left pads out =
      a2bBase64 rest 0 0 0 (out ++ [left * 64 + v]) := by
  rw [a2bBase64.eq_def]
  simp only [if_neg (b64Char_ne_pad v hv), b64CharVal_b64Char v hv]

theorem a2b_pad_skip (rest : List Char) (qp left pads : Nat) (out : List Nat)
    (h : ¬ 2 ≤ qp) :
    a2bBase64 ('=' :: rest) qp left pads out = a2bBase64 rest qp left pads out := by
  rw [a2bBase64.eq_def]
  simp only [if_pos rfl, if_neg h, if_true]

theorem a2b_pad_cont (rest : List Char) (qp left pads : Nat) (out : List Nat)
    (h2 : 2 ≤ qp) (h4 : ¬ 4 ≤ qp + (pads + 1)) :
    a2bBase64 ('=' :: rest) qp left pads out = a2bBase64 rest qp left (pads + 1) out := by
  rw [a2bBase64.eq_def]
  simp only [if_pos rfl, if_pos h2, if_neg h4, if_true]

theorem a2b_pad_done (rest : List Char) (qp left pads : Nat) (out : List Nat)
    (h2 : 2 ≤ qp) (h4 : 4 ≤ qp + (pads + 1)) :
    a2bBase64 ('=' :: rest) qp left pads out = some out := by
  rw [a2bBase64.eq_def]
  simp only [if_pos rfl, if_pos h2, if_pos h4, if_true]

theorem a2b_quad (a b c : Nat) (ha : a < 256) (hb : b < 256) (hc : c < 256)
    (rest : List Char) (out : List Nat) :
    a2bBase64 (b64Char (a / 4) :: b64Char (a % 4 * 16 + b / 16) ::
        b64Char (b % 16 * 4 + c / 64) :: b64Char (c % 64) :: rest) 0 0 0 out =
      a2bBase64 rest 0 0 0 (out ++ [a, b, c]) := by
  rw [a2b_step0 _ (by omega), a2b_step1 _ (by omega), a2b_step2 _ (by omega),
    a2b_step3 _ (by omega)]
  have e1 : a / 4 * 4 + (a % 4 * 16 + b / 16) / 16 = a := by omega
  have e2 : (a % 4 * 16 + b / 16) % 16 * 16 + (b % 16 * 4 + c / 64) / 4 = b := by omega
  have e3 : (b % 16 * 4 + c / 64) % 4 * 64 + c % 64 = c := by omega
  rw [e1, e2, e3]
  simp [List.append_assoc]

theorem a2b_tail1 (a : Nat) (ha : a < 256) (out : List Nat) :
    a2bBase64 [b64Char (a / 4), b64Char (a % 4 * 16), '=', '='] 0 0 0 out =
      some (out ++ [a]) := by
  rw [a2b_step0 _ (by omega), a2b_step1 _ (by omega)]
  rw [a2b_pad_cont _ _ _ _ _ (by omega) (by omega), a2b_pad_done _ _ _ _ _ (by omega) (by omega)]
  have e1 : a / 4 * 4 + a % 4 * 16 / 16 = a := by omega
  rw [e1]

theorem a2b_tail2 (a b : Nat) (ha : a < 256) (hb : b < 256) (out : List Nat) :
    a2bBase64 [b64Char (a / 4), b64Char (a % 4 * 16 + b / 16), b64Char (b % 16 * 4), '='] 0 0 0 out =
      some (out ++ [a, b]) := by
  rw [a2b_step0 _ (by omega), a2b_step1 _ (by omega), a2b_step2 _ (by omega)]
  rw [a2b_pad_done _ _ _ _ _ (by omega) (by omega)]
  have e1 : a / 4 * 4 + (a % 4 * 16 + b / 16) / 16 = a := by omega
  have e2 : (a % 4 * 16 + b / 16) % 16 * 16 + b % 16 * 4 / 4 = b := by omega
  rw [e1, e2]
  simp [List.append_assoc]

theorem b64EncodeL_length_mod (a b c : Nat) (rest : List Nat) :
    (b64EncodeL (a :: b :: c :: rest)).length % 4 = (b64EncodeL rest).length % 4 := by
  simp only [b64EncodeL, List.length_cons]
  omega

theorem a2b_encode (bs : List Nat) (hb : ∀ x ∈ bs, x < 256) (out : List Nat) :
    a2bBase64 (b64EncodeL bs ++ List.replicate ((4 - (b64EncodeL bs).length % 4) % 4) '=') 0 0 0 out =
      some (out ++ bs) := by
  induction bs using b64EncodeL.induct generalizing out with
  | case1 a b c rest ih =>
    have ha : a < 256 := hb a (by simp)
    have hbb : b < 256 := hb b (by simp)
    have hc : c < 256 := hb c (by simp)
    rw [b64EncodeL_length_mod]
    show a2bBase64 ((b64Char (a / 4) :: b64Char (a % 4 * 16 + b / 16) ::
        b64Char (b % 16 * 4 + c / 64) :: b64Char (c % 64) :: b64EncodeL rest) ++ _) 0 0 0 out = _
    simp only [List.cons_append]
    rw [a2b_quad a b c ha hbb hc]
    rw [ih (fun x hx => hb x (by simp [hx]))]
    simp [List.append_assoc]
  | case2 a b =>
    have ha : a < 256 := hb a (by simp)
    have hbb : b < 256 := hb b (by simp)
    show a2bBase64 ([b64Char (a / 4), b64Char (a % 4 * 16 + b / 16), b64Char (b % 16 * 4)] ++ _) 0 0 0 out = _
    norm_num [List.replicate]
    exact a2b_tail2 a b ha hbb out
  | case3 a =>
    have ha : a < 256 := hb a (by simp)
    show a2bBase64 ([b64Char (a / 4), b64Char (a % 4 * 16)] ++ _) 0 0 0 out = _
    norm_num [List.replicate]
    exact a2b_tail1 a ha out
  | case4 =>
    show a2bBase64 ([] ++ _) 0 0 0 out = _
    norm_num [List.replicate]
    rw [a2bBase64.eq_def]
    simp

theorem b64EncodeL_ascii (bs : List Nat) (hb : ∀ x ∈ bs, x < 256) :
    ∀ c ∈ b64EncodeL bs, c.toNat < 128 := by
  induction bs using b64EncodeL.induct with
  | case1 a b c rest ih =>
    have ha : a < 256 := hb a (by simp)
    have hbb : b < 256 := hb b (by simp)
    have hc : c < 256 := hb c (by simp)
    intro x hx
    simp only [b64EncodeL, List.cons_append, List.mem_cons] at hx
    rcases hx with h | h | h | h | h
    · subst h; exact b64Char_toNat_lt _ (by omega)
    · subst h; exact b64Char_toNat_lt _ (by omega)
    · subst h; exact b64Char_toNat_lt _ (by omega)
    · subst h; exact b64Char_toNat_lt _ (by omega)
    · exact ih (fun x hx => hb x (by simp [hx])) x h
  | case2 a b =>
    have ha : a < 256 := hb a (by simp)
    have hbb : b < 256 := hb b (by simp)
    intro x hx
    simp only [b64EncodeL, List.mem_cons, List.not_mem_nil, or_false] at hx
    rcases hx with h | h | h <;> (subst h; exact b64Char_toNat_lt _ (by omega))
  | case3 a =>
    have ha : a < 256 := hb a (by simp)
    intro x hx
    simp only [b64EncodeL, List.mem_cons, List.not_mem_nil, or_false] at hx
    rcases hx with h | h <;> (subst h; exact b64Char_toNat_lt _ (by omega))
  | case4 =>
    intro x hx
    simp [b64EncodeL] at hx

/-- On actual byte lists, decoding the (padding-stripped) encoding gives the
bytes back. -/
theorem b64_roundtrip (bs : List Nat) (hb : ∀ x ∈ bs, x < 256) :
    b64url_decode (b64url_encode bs) = some bs := by
  unfold b64url_decode b64url_encode
  have hdata : (String.mk (b64EncodeL bs)).data = b64EncodeL bs := rfl
  rw [hdata]
  have hany : (b64EncodeL bs).any (fun c => 128 ≤ c.toNat) = false := by
    rw [List.any_eq_false]
    intro c hc
    have := b64EncodeL_ascii bs hb c hc
    simp only [decide_eq_true_eq]
    omega
  rw [if_neg (by simp [hany])]
  exact a2b_encode bs hb []

/-- The pad counter is counted only from quadruple position two and resets on
every data character, exactly as in CPython: `"A=B="` is rejected
(`binascii.Error: Incorrect padding` — the dangling two-character quadruple),
while `"A=B=CC"` decodes to the three bytes `0x00 0x10 0x82`. -/
theorem b64url_decode_pad_reset :
    b64url_decode "A=B=" = none ∧ b64url_decode "A=B=CC" = some [0, 16, 130] := by
  exact ⟨by decide, by decide⟩

/-! ## Verifier phase characterizations -/

theorem ite_nil_iff {c : Prop} [Decidable c] {x : VerificationFailure} :
    ((if c then ([] : List VerificationFailure) else [x]) = []) ↔ c := by
  split <;> simp_all

theorem structFailsAux_nil_iff (sid0 : String) : ∀ (l : List Message) (i : Nat),
    structFailsAux sid0 i l = [] ↔ structOk sid0 i l := by
  intro l
  induction l with
  | nil => intro i; simp [structFailsAux, structOk]
  | cons m rest ih =>
    intro i
    simp only [structFailsAux, structOk, List.append_eq_nil]
    constructor
    · rintro ⟨h1, h2, h3, h4⟩
      refine ⟨⟨ite_nil_iff.1 h1, ite_nil_iff.1 h2, ?_⟩, (ih _).1 h4⟩
      revert h3; cases m.proof <;> simp
    · rintro ⟨⟨ha, hb, hc⟩, hrec⟩
      refine ⟨by simp [ha], by simp [hb], ?_, (ih _).2 hrec⟩
      revert hc; cases m.proof <;> simp

theorem structOk_iff_get (sid0 : String) : ∀ (l : List Message) (i : Nat),
    structOk sid0 i l ↔
      ∀ j (hj : j < l.length), (l.get ⟨j, hj⟩).session_id = sid0 ∧
        (l.get ⟨j, hj⟩).sequence = ((i + j : Nat) : Int) ∧ (l.get ⟨j, hj⟩).proof ≠ none := by
  intro l
  induction l with
  | nil => intro i; simp [structOk]
  | cons m rest ih =>
    intro i
    simp only [structOk]
    constructor
    · rintro ⟨⟨ha, hb, hc⟩, hrec⟩ j hj
      cases j with
      | zero => exact ⟨ha, by simpa using hb, hc⟩
      | succ j =>
        have := (ih (i + 1)).1 hrec j (by simpa using hj)
        refine ⟨this.1, ?_, this.2.2⟩
        have h2 := this.2.1
        simp only [List.get] at h2 ⊢
        convert h2 using 2
        omega
    · intro h
      refine ⟨?_, (ih (i + 1)).2 ?_⟩
      · have := h 0 (by simp)
        exact ⟨this.1, by simpa using this.2.1, this.2.2⟩
      · intro j hj
        have := h (j + 1) (by simpa using hj)
        refine ⟨this.1, ?_, this.2.2⟩
        have h2 := this.2.1
        simp only [List.get] at h2 ⊢
        convert h2 using 2
        omega

theorem hashFailsAux_nil_iff : ∀ (l : List Message) (i : Nat),
    hashFailsAux i l = [] ↔ List.Chain' (fun a b => b.prev_hash = message_hash a) l := by
  intro l
  induction l with
  | nil => intro i; simp [hashFailsAux]
  | cons m rest ih =>
    intro i
    cases rest with
    | nil => simp [hashFailsAux]
    | cons b rest2 =>
      simp only [hashFailsAux, List.append_eq_nil, List.chain'_cons]
      rw [ih (i + 1)]
      constructor
      · rintro ⟨h1, h2⟩
        exact ⟨ite_nil_iff.1 h1, h2⟩
      · rintro ⟨h1, h2⟩
        exact ⟨by simp [h1], h2⟩

theorem sigCheckEntry_isOk {t : TrustedKeys} {i : Nat} {m : Message} {p : Proof}
    (hp : m.proof = some p) (hd : (b64url_decode p.proof_value).isSome = true) :
    ∃ fs, sigCheckEntry t i m = .ok fs := by
  unfold sigCheckEntry
  rw [hp]
  dsimp only
  cases hdec : b64url_decode p.proof_value with
  | none => rw [hdec] at hd; simp at hd
  | some sig =>
    dsimp only
    cases hlk : List.lookup m.agent_id t with
    | none => exact ⟨_, rfl⟩
    | some pub =>
      dsimp only
      cases hfp : from_public_b64url pub with
      | none => exact ⟨_, rfl⟩
      | some pb =>
        dsimp only
        split
        · exact ⟨_, rfl⟩
        · exact ⟨_, rfl⟩

theorem sigCheckEntry_ok_elim {t : TrustedKeys} {i : Nat} {m : Message}
    (h : sigCheckEntry t i m = .ok []) :
    ∃ p sig pub pb, m.proof = some p ∧ b64url_decode p.proof_value = some sig ∧
      List.lookup m.agent_id t = some pub ∧ from_public_b64url pub = some pb ∧
      verifyBytesPub pb sig (strBytes (canonPayloadStr m)) = true := by
  unfold sigCheckEntry at h
  cases hp : m.proof with
  | none => rw [hp] at h; exact absurd h (by simp)
  | some p =>
    rw [hp] at h
    dsimp only at h
    cases hdec : b64url_decode p.proof_value with
    | none => rw [hdec] at h; exact absurd h (by simp)
    | some sig =>
      rw [hdec] at h
      dsimp only at h
      cases hlk : List.lookup m.agent_id t with
      | none => rw [hlk] at h; simp at h
      | some pub =>
        rw [hlk] at h
        dsimp only at h
        cases hfp : from_public_b64url pub with
        | none => rw [hfp] at h; simp at h
        | some pb =>
          rw [hfp] at h
          dsimp only at h
          split at h
          · exact ⟨p, sig, pub, pb, rfl, hdec, rfl, hfp, by assumption⟩
          · simp at h

theorem sigFailsAux_ok_nil {t : TrustedKeys} : ∀ (l : List Message) (i : Nat),
    sigFailsAux t i l = .ok [] ↔
      ∀ j (hj : j < l.length), sigCheckEntry t (i + j) (l.get ⟨j, hj⟩) = .ok [] := by
  intro l
  induction l with
  | nil => intro i; simp [sigFailsAux]
  | cons m rest ih =>
    intro i
    simp only [sigFailsAux]
    cases hm : sigCheckEntry t i m with
    | error e =>
      constructor
      · intro h; simp at h
      · intro h
        have := h 0 (by simp)
        simp only [List.get] at this
        rw [show i + 0 = i from rfl, hm] at this
        simp at this
    | ok fs =>
      cases hr : sigFailsAux t (i + 1) rest with
      | error e =>
        constructor
        · intro h; simp at h
        · intro h
          have : sigFailsAux t (i + 1) rest = .ok [] := by
            rw [ih (i + 1)]
            intro j hj
            have := h (j + 1) (by simpa using hj)
            simp only [List.get] at this ⊢
            rw [show i + (j + 1) = i + 1 + j by omega] at this
            exact this
          rw [hr] at this; simp at this
      | ok rest2 =>
        constructor
        · intro h
          have hboth : fs = [] ∧ rest2 = [] := by
            have := Except.ok.inj h
            exact List.append_eq_nil.1 this
          intro j hj
          cases j with
          | zero =>
            simp only [List.get]
            rw [show i + 0 = i from rfl, hm, hboth.1]
          | succ j =>
            have : sigFailsAux t (i + 1) rest = .ok [] := by rw [hr, hboth.2]
            have h2 := (ih (i + 1)).1 this j (by simpa using hj)
            simp only [List.get] at h2 ⊢
            rw [show i + (j + 1) = i + 1 + j by omega]
            exact h2
        · intro h
          have h0 := h 0 (by simp)
          simp only [List.get] at h0
          rw [show i + 0 = i from rfl, hm] at h0
          have hfs : fs = [] := Except.ok.inj h0
          have hrest : rest2 = [] := by
            have : sigFailsAux t (i + 1) rest = .ok [] := by
              rw [ih (i + 1)]
              intro j hj
              have := h (j + 1) (by simpa using hj)
              simp only [List.get] at this ⊢
              rw [show i + (j + 1) = i + 1 + j by omega] at this
              exact this
            rw [hr] at this
            exact Except.ok.inj this
          rw [hfs, hrest]
          rfl

theorem sigFailsAux_mem_ne {t : TrustedKeys} : ∀ (l : List Message) (i j : Nat)
    (hj : j < l.length) (fs g : List VerificationFailure),
    sigFailsAux t i l = .ok g → sigCheckEntry t (i + j) (l.get ⟨j, hj⟩) = .ok fs →
    fs ≠ [] → g ≠ [] := by
  intro l
  induction l with
  | nil => intro i j hj; simp at hj
  | cons m rest ih =>
    intro i j hj fs g hsig hentry hfs
    simp only [sigFailsAux] at hsig
    cases hm : sigCheckEntry t i m with
    | error e => rw [hm] at hsig; simp at hsig
    | ok fs0 =>
      rw [hm] at hsig
      cases hr : sigFailsAux t (i + 1) rest with
      | error e => rw [hr] at hsig; simp at hsig
      | ok rest2 =>
        rw [hr] at hsig
        have hg : g = fs0 ++ rest2 := (Except.ok.inj hsig).symm
        cases j with
        | zero =>
          simp only [List.get] at hentry
          rw [show i + 0 = i from rfl, hm] at hentry
          have : fs0 = fs := Except.ok.inj hentry
          subst this
          simp [hg, hfs]
        | succ j =>
          simp only [List.get] at hentry
          rw [show i + (j + 1) = i + 1 + j by omega] at hentry
          have := ih (i + 1) j (by simpa using hj) fs rest2 hr hentry hfs
          simp [hg, this]

theorem sigFailsAux_isOk {t : TrustedKeys} : ∀ (l : List Message) (i : Nat),
    (∀ m ∈ l, ∃ p, m.proof = some p ∧ (b64url_decode p.proof_value).isSome = true) →
    ∃ g, sigFailsAux t i l = .ok g := by
  intro l
  induction l with
  | nil => intro i _; exact ⟨[], rfl⟩
  | cons m rest ih =>
    intro i h
    obtain ⟨p, hp, hd⟩ := h m (by simp)
    obtain ⟨fs, hfs⟩ := sigCheckEntry_isOk (t := t) (i := i) hp hd
    obtain ⟨g, hg⟩ := ih (i + 1) (fun m2 hm2 => h m2 (by simp [hm2]))
    exact ⟨fs ++ g, by simp only [sigFailsAux, hfs, hg]⟩

theorem verify_ok_cases {t : TrustedKeys} {chain : List Message} {r : VerificationResult}
    (hne : chain ≠ []) (h : verify t chain = .ok r) :
    (structFails chain ≠ [] ∧ r = ⟨false, "", structFails chain⟩) ∨
    (structFails chain = [] ∧ ∃ g, sigFailsAux t 0 chain = .ok g ∧
      r.failures = hashFails chain ++ g ∧ r.is_valid = (hashFails chain ++ g).isEmpty) := by
  cases chain with
  | nil => exact absurd rfl hne
  | cons m0 rest =>
    unfold verify at h
    by_cases hs : structFails (m0 :: rest) = []
    · right
      refine ⟨hs, ?_⟩
      simp only [hs, List.isEmpty_nil, if_true] at h
      cases hsig : sigFailsAux t 0 (m0 :: rest) with
      | error e => rw [hsig] at h; simp at h
      | ok g =>
        rw [hsig] at h
        dsimp only at h
        refine ⟨g, rfl, ?_⟩
        by_cases hf : (hashFails (m0 :: rest) ++ g).isEmpty = true
        · rw [if_pos hf] at h
          have := Except.ok.inj h
          rw [← this]
          exact ⟨rfl, hf.symm⟩
        · rw [if_neg hf] at h
          have := Except.ok.inj h
          rw [← this]
          simp only [Bool.not_eq_true] at hf
          exact ⟨rfl, hf.symm⟩
    · left
      refine ⟨hs, ?_⟩
      have hemp : (structFails (m0 :: rest)).isEmpty = false := by
        cases hsf : structFails (m0 :: rest) with
        | nil => exact absurd hsf hs
        | cons a b => rfl
      simp only [hemp, Bool.false_eq_true, if_false] at h
      exact (Except.ok.inj h).symm

theorem verify_valid_of {t : TrustedKeys} {chain : List Message}
    (hne : chain ≠ []) (hs : structFails chain = []) (hh : hashFails chain = [])
    (hg : sigFailsAux t 0 chain = .ok []) :
    verify t chain =
      .ok ⟨true, "Chain of " ++ toString chain.length ++ " messages verified successfully", []⟩ := by
  cases chain with
  | nil => exact absurd rfl hne
  | cons m0 rest =>
    unfold verify
    simp only [hs, List.isEmpty_nil, if_true, hg]
    simp only [hh, List.nil_append]
    rfl

/-- From a valid verification result, the three pointwise chain facts. -/
theorem verify_valid_parts {t : TrustedKeys} {chain : List Message} {r : VerificationResult}
    (hne : chain ≠ []) (h : verify t chain = .ok r) (hv : r.is_valid = true) :
    structFails chain = [] ∧ hashFails chain = [] ∧ sigFailsAux t 0 chain = .ok [] := by
  rcases verify_ok_cases hne h with ⟨_, hr⟩ | ⟨hs, g, hg, hf, hiv⟩
  · rw [hr] at hv; simp at hv
  · rw [hv] at hiv
    have : hashFails chain ++ g = [] := by
      cases hfg : hashFails chain ++ g with
      | nil => rfl
      | cons a b => rw [hfg] at hiv; simp at hiv
    obtain ⟨h1, h2⟩ := List.append_eq_nil.1 this
    exact ⟨hs, h1, by rw [hg, h2]⟩

/-! ## The loader's defense-in-depth check under well-formed sequences -/

theorem chainGuard_drop (l : List Message)
    (hseq : ∀ j (hj : j < l.length), (l.get ⟨j, hj⟩).sequence = (j : Int)) :
    ∀ d k, k ≤ l.length → 1 ≤ k → d = l.length - k →
    chainGuard l (l.drop k) =
      (match firstBreak (l.drop (k - 1)) with
        | none => Except.ok l
        | some s => Except.error ("Chain broken at sequence " ++ toString s)) := by
  intro d
  induction d with
  | zero =>
    intro k hk h1 hd
    have hkn : k = l.length := by omega
    subst hkn
    rw [List.drop_length]
    have hlt : l.length - 1 < l.length := by omega
    have hdrop : l.drop (l.length - 1) = l[l.length - 1] :: l.drop (l.length - 1 + 1) :=
      List.drop_eq_getElem_cons hlt
    rw [show l.length - 1 + 1 = l.length by omega, List.drop_length] at hdrop
    rw [hdrop]
    rfl
  | succ d ih =>
    intro k hk h1 hd
    have hklt : k < l.length := by omega
    have hk1lt : k - 1 < l.length := by omega
    rw [List.drop_eq_getElem_cons hklt]
    have hs : l[k].sequence = (k : Int) := by
      have := hseq k hklt
      simpa [List.get_eq_getElem] using this
    have hdrop1 : l.drop (k - 1) = l[k - 1] :: l.drop k := by
      rw [List.drop_eq_getElem_cons hk1lt, show k - 1 + 1 = k by omega]
    simp only [chainGuard]
    rw [hs, if_pos (by omega : (k : Int) > 0)]
    rw [show ((k : Int) - 1).toNat = k - 1 by omega]
    rw [(List.getElem?_eq_some_getElem_iff l (k - 1) hk1lt).mpr trivial]
    dsimp only
    by_cases hmatch : l[k].prev_hash = message_hash l[k - 1]
    · rw [if_pos hmatch]
      rw [ih (k + 1) (by omega) (by omega) (by omega)]
      have : firstBreak (l.drop (k + 1 - 1)) = firstBreak (l.drop (k - 1)) := by
        rw [show k + 1 - 1 = k from rfl, hdrop1, List.drop_eq_getElem_cons hklt]
        simp only [firstBreak]
        rw [if_pos hmatch]
      rw [this]
    · rw [if_neg hmatch]
      rw [hdrop1, List.drop_eq_getElem_cons hklt]
      simp only [firstBreak]
      rw [if_neg hmatch, hs]

/-- Under well-formed sequences (`0, 1, …, n-1` after sorting), the loader's
check loop compares every entry against its true predecessor and reports the
first break, by its sequence number. -/
theorem chainGuard_self (l : List Message)
    (hseq : ∀ j (hj : j < l.length), (l.get ⟨j, hj⟩).sequence = (j : Int)) :
    chainGuard l l =
      (match firstBreak l with
        | none => Except.ok l
        | some s => Except.error ("Chain broken at sequence " ++ toString s)) := by
  rcases l with _ | ⟨m0, rest⟩
  · rfl
  · have h0 : m0.sequence = (0 : Int) := by simpa using hseq 0 (by simp)
    simp only [chainGuard]
    rw [h0, if_neg (by omega : ¬ (0 : Int) > 0)]
    show chainGuard (m0 :: rest) ((m0 :: rest).drop 1) = _
    rw [chainGuard_drop (m0 :: rest) hseq ((m0 :: rest).length - 1) 1 (by simp) (le_refl 1) rfl]
    rfl

/-! ## Tamper-evidence support lemmas -/

theorem msg_upd_content (m : Message) : ({ m with content := m.content } : Message) = m := by
  cases m; rfl

theorem msg_upd_timestamp (m : Message) : ({ m with timestamp := m.timestamp } : Message) = m := by
  cases m; rfl

theorem msg_upd_session (m : Message) : ({ m with session_id := m.session_id } : Message) = m := by
  cases m; rfl

theorem msg_upd_sequence (m : Message) : ({ m with sequence := m.sequence } : Message) = m := by
  cases m; rfl

theorem msg_upd_agent_id (m : Message) : ({ m with agent_id := m.agent_id } : Message) = m := by
  cases m; rfl

theorem msg_upd_agent_role (m : Message) : ({ m with agent_role := m.agent_role } : Message) = m := by
  cases m; rfl

theorem msg_upd_content_type (m : Message) :
    ({ m with content_type := m.content_type } : Message) = m := by
  cases m; rfl

theorem msg_upd_prev_hash (m : Message) : ({ m with prev_hash := m.prev_hash } : Message) = m := by
  cases m; rfl

theorem prf_upd_type (p : Proof) : ({ p with type := p.type } : Proof) = p := by
  cases p; rfl

theorem prf_upd_created (p : Proof) : ({ p with created := p.created } : Proof) = p := by
  cases p; rfl

theorem prf_upd_verif (p : Proof) :
    ({ p with verification_method := p.verification_method } : Proof) = p := by
  cases p; rfl

theorem prf_upd_purpose (p : Proof) :
    ({ p with proof_purpose := p.proof_purpose } : Proof) = p := by
  cases p; rfl

theorem prf_upd_value (p : Proof) : ({ p with proof_value := p.proof_value } : Proof) = p := by
  cases p; rfl

theorem canonPayload_proof_irrel (m : Message) (op : Option Proof) :
    canonPayloadL { m with proof := op } = canonPayloadL m := by
  cases m; rfl

/-- A structural mismatch at some position makes phase 1 report a failure. -/
theorem structFails_ne {chain : List Message} {j : Nat} (hj : j < chain.length)
    (h0 : 0 < chain.length)
    (h : ¬ ((chain.get ⟨j, hj⟩).session_id = (chain.get ⟨0, h0⟩).session_id ∧
        (chain.get ⟨j, hj⟩).sequence = (j : Int) ∧ (chain.get ⟨j, hj⟩).proof ≠ none)) :
    structFails chain ≠ [] := by
  rcases chain with _ | ⟨m0, rest⟩
  · simp at h0
  · intro hnil
    rw [structFails] at hnil
    have := (structOk_iff_get m0.session_id (m0 :: rest) 0).1
      ((structFailsAux_nil_iff m0.session_id (m0 :: rest) 0).1 hnil) j hj
    simp only [Nat.zero_add] at this
    exact h ⟨this.1, this.2.1, this.2.2⟩

/-- From an empty phase-1 failure list, the pointwise structural facts. -/
theorem structFails_nil_get {chain : List Message} (hnil : structFails chain = [])
    {j : Nat} (hj : j < chain.length) (h0 : 0 < chain.length) :
    (chain.get ⟨j, hj⟩).session_id = (chain.get ⟨0, h0⟩).session_id ∧
      (chain.get ⟨j, hj⟩).sequence = (j : Int) ∧ (chain.get ⟨j, hj⟩).proof ≠ none := by
  rcases chain with _ | ⟨m0, rest⟩
  · simp at h0
  · rw [structFails] at hnil
    have := (structOk_iff_get m0.session_id (m0 :: rest) 0).1
      ((structFailsAux_nil_iff m0.session_id (m0 :: rest) 0).1 hnil) j hj
    simp only [Nat.zero_add] at this
    exact ⟨this.1, this.2.1, this.2.2⟩

/-- A linkage mismatch at some adjacent pair makes phase 2 report a failure. -/
theorem hashFails_ne {chain : List Message} {j : Nat} (hj1 : j + 1 < chain.length)
    (h : (chain.get ⟨j + 1, hj1⟩).prev_hash ≠
      message_hash (chain.get ⟨j, Nat.lt_of_succ_lt hj1⟩)) :
    hashFails chain ≠ [] := by
  intro hnil
  have hc := (hashFailsAux_nil_iff chain 1).1 hnil
  exact h (List.chain'_iff_get.1 hc j (by omega))

/-- From an empty phase-2 failure list, the pointwise linkage facts. -/
theorem hashFails_nil_get {chain : List Message} (hnil : hashFails chain = [])
    {j : Nat} (hj1 : j + 1 < chain.length) :
    (chain.get ⟨j + 1, hj1⟩).prev_hash =
      message_hash (chain.get ⟨j, Nat.lt_of_succ_lt hj1⟩) := by
  have hc := (hashFailsAux_nil_iff chain 1).1 hnil
  exact List.chain'_iff_get.1 hc j (by omega)

theorem from_public_length {s : String} {pb : List Nat}
    (h : from_public_b64url s = some pb) : pb.length = 8 := by
  unfold from_public_b64url at h
  cases hd : b64url_decode s with
  | none => rw [hd] at h; simp at h
  | some bs =>
    rw [hd] at h
    dsimp only at h
    split at h
    · cases h; assumption
    · simp at h

theorem sigCheckEntry_fail_sig {t : TrustedKeys} {i : Nat} {m : Message} {p : Proof}
    {sig pb : List Nat} {pub : String}
    (hp : m.proof = some p) (hdec : b64url_decode p.proof_value = some sig)
    (hlk : List.lookup m.agent_id t = some pub) (hfp : from_public_b64url pub = some pb)
    (hv : verifyBytesPub pb sig (strBytes (canonPayloadStr m)) = false) :
    sigCheckEntry t i m =
      .ok [⟨(i : Int), "Signature verification failed", "signature"⟩] := by
  unfold sigCheckEntry
  rw [hp]; dsimp only
  rw [hdec]; dsimp only
  rw [hlk]; dsimp only
  rw [hfp]; dsimp only
  rw [if_neg (by rw [hv]; simp)]

theorem sigCheckEntry_fail_nokey {t : TrustedKeys} {i : Nat} {m : Message} {p : Proof}
    {sig : List Nat}
    (hp : m.proof = some p) (hdec : b64url_decode p.proof_value = some sig)
    (hlk : List.lookup m.agent_id t = none) :
    sigCheckEntry t i m =
      .ok [⟨(i : Int), "No trusted public key found for agent " ++ m.agent_id, "signature"⟩] := by
  unfold sigCheckEntry
  rw [hp]; dsimp only
  rw [hdec]; dsimp only
  rw [hlk]

theorem sigCheckEntry_fail_badkey {t : TrustedKeys} {i : Nat} {m : Message} {p : Proof}
    {sig : List Nat} {pub : String}
    (hp : m.proof = some p) (hdec : b64url_decode p.proof_value = some sig)
    (hlk : List.lookup m.agent_id t = some pub) (hfp : from_public_b64url pub = none) :
    sigCheckEntry t i m =
      .ok [⟨(i : Int), "Failed to load trusted public key for " ++ m.agent_id, "signature"⟩] := by
  unfold sigCheckEntry
  rw [hp]; dsimp only
  rw [hdec]; dsimp only
  rw [hlk]; dsimp only
  rw [hfp]

/-- Route A: a phase-1 failure makes the whole result invalid. -/
theorem verify_invalid_of_struct_ne {t : TrustedKeys} {chain : List Message}
    {r : VerificationResult} (hne : chain ≠ [])
    (hs : structFails chain ≠ []) (hok : verify t chain = .ok r) :
    r.is_valid = false ∧ r.failures ≠ [] := by
  rcases verify_ok_cases hne hok with ⟨_, hr⟩ | ⟨hs2, _⟩
  · rw [hr]; exact ⟨rfl, hs⟩
  · exact absurd hs2 hs

/-- Route B: a phase-2 failure makes the whole result invalid. -/
theorem verify_invalid_of_hash_ne {t : TrustedKeys} {chain : List Message}
    {r : VerificationResult} (hne : chain ≠ [])
    (hh : hashFails chain ≠ []) (hok : verify t chain = .ok r) :
    r.is_valid = false ∧ r.failures ≠ [] := by
  rcases verify_ok_cases hne hok with ⟨hs, hr⟩ | ⟨_, g, _, hf, hiv⟩
  · rw [hr]; exact ⟨rfl, hs⟩
  · have hfne : hashFails chain ++ g ≠ [] := by
      cases hfc : hashFails chain with
      | nil => exact absurd hfc hh
      | cons a l => simp
    constructor
    · rw [hiv]
      cases hfc : hashFails chain ++ g with
      | nil => exact absurd hfc hfne
      | cons a l => rfl
    · rw [hf]; exact hfne

/-- Route C: a phase-3 failure record at some position makes the whole result
invalid. -/
theorem verify_invalid_of_sig_fail {t : TrustedKeys} {chain : List Message}
    {r : VerificationResult} {j : Nat} (hne : chain ≠ []) (hj : j < chain.length)
    {fs : List VerificationFailure}
    (hfs : sigCheckEntry t j (chain.get ⟨j, hj⟩) = .ok fs) (hfne : fs ≠ [])
    (hok : verify t chain = .ok r) :
    r.is_valid = false ∧ r.failures ≠ [] := by
  rcases verify_ok_cases hne hok with ⟨hs, hr⟩ | ⟨_, g, hg, hf, hiv⟩
  · rw [hr]; exact ⟨rfl, hs⟩
  · have hgne : g ≠ [] := by
      refine sigFailsAux_mem_ne chain 0 j hj fs g hg ?_ hfne
      simpa using hfs
    have hfne2 : hashFails chain ++ g ≠ [] := List.append_ne_nil_of_right_ne_nil _ hgne
    constructor
    · rw [hiv]
      cases hfc : hashFails chain ++ g with
      | nil => exact absurd hfc hfne2
      | cons a l => rfl
    · rw [hf]; exact hfne2

theorem msg_upd_proof (m : Message) : ({ m with proof := m.proof } : Message) = m := by
  cases m; rfl

theorem get_set_self {α : Type} (l : List α) (i : Nat) (x : α)
    (hi' : i < (l.set i x).length) : (l.set i x).get ⟨i, hi'⟩ = x := by
  simp only [List.get_eq_getElem]
  exact List.getElem_set_self (by simpa using hi')

theorem get_set_ne {α : Type} (l : List α) (i j : Nat) (x : α) (hne : i ≠ j)
    (hj' : j < (l.set i x).length) (hj : j < l.length) :
    (l.set i x).get ⟨j, hj'⟩ = l.get ⟨j, hj⟩ := by
  simp only [List.get_eq_getElem]
  exact List.getElem_set_ne hne hj'

theorem set_ne_nil {α : Type} {l : List α} {i : Nat} {x : α} (h : l ≠ []) :
    l.set i x ≠ [] := by
  cases l with
  | nil => exact absurd rfl h
  | cons a rest => cases i <;> simp

theorem ne_nil_of_lt {α : Type} {l : List α} {i : Nat} (hi : i < l.length) : l ≠ [] := by
  intro h; rw [h] at hi; simp at hi

/-- Mutating a field that lies in the signing payload (but leaves the proof
block and the agent id alone) breaks the entry's own signature check. -/
theorem verify_invalid_payload_change {t : TrustedKeys} {chain : List Message}
    {r : VerificationResult} {i : Nat} (hi : i < chain.length) {m' : Message}
    (hproof : m'.proof = (chain.get ⟨i, hi⟩).proof)
    (hagent : m'.agent_id = (chain.get ⟨i, hi⟩).agent_id)
    (hpay : canonPayloadL m' ≠ canonPayloadL (chain.get ⟨i, hi⟩))
    (hg0 : sigFailsAux t 0 chain = .ok [])
    (hok : verify t (chain.set i m') = .ok r) :
    r.is_valid = false ∧ r.failures ≠ [] := by
  have h0i : sigCheckEntry t i (chain.get ⟨i, hi⟩) = .ok [] := by
    have := (sigFailsAux_ok_nil chain 0).1 hg0 i hi
    simpa using this
  obtain ⟨p, sig, pub, pb, hp, hdec, hlk, hfp, hvb⟩ := sigCheckEntry_ok_elim h0i
  have hsig : sig = pb ++ strBytes (canonPayloadStr (chain.get ⟨i, hi⟩)) := eq_of_beq hvb
  have hvb' : verifyBytesPub pb sig (strBytes (canonPayloadStr m')) = false := by
    cases htest : verifyBytesPub pb sig (strBytes (canonPayloadStr m')) with
    | false => rfl
    | true =>
      exfalso
      have he : pb ++ strBytes (canonPayloadStr (chain.get ⟨i, hi⟩)) =
          pb ++ strBytes (canonPayloadStr m') := by
        rw [← hsig]; exact eq_of_beq htest
      have he2 := strBytes_inj (List.append_cancel_left he)
      simp only [canonPayloadStr] at he2
      injection he2 with hdata
      exact hpay hdata.symm
  have hp' : m'.proof = some p := hproof.trans hp
  have hlk' : List.lookup m'.agent_id t = some pub := by rw [hagent]; exact hlk
  have hfail : sigCheckEntry t i m' =
      .ok [⟨(i : Int), "Signature verification failed", "signature"⟩] :=
    sigCheckEntry_fail_sig hp' hdec hlk' hfp hvb'
  have hne : chain.set i m' ≠ [] := set_ne_nil (ne_nil_of_lt hi)
  have hj : i < (chain.set i m').length := by simpa using hi
  have hfs2 : sigCheckEntry t i ((chain.set i m').get ⟨i, hj⟩) =
      .ok [⟨(i : Int), "Signature verification failed", "signature"⟩] := by
    rw [get_set_self]; exact hfail
  exact verify_invalid_of_sig_fail hne hj hfs2 (by simp) hok

/-- Mutating the agent id breaks the signature check whichever way the
trust-map lookup of the new id goes. -/
theorem verify_invalid_agent_change {t : TrustedKeys} {chain : List Message}
    {r : VerificationResult} {i : Nat} (hi : i < chain.length) {v : String}
    (hv : v ≠ (chain.get ⟨i, hi⟩).agent_id)
    (hg0 : sigFailsAux t 0 chain = .ok [])
    (hok : verify t (chain.set i { chain.get ⟨i, hi⟩ with agent_id := v }) = .ok r) :
    r.is_valid = false ∧ r.failures ≠ [] := by
  have h0i : sigCheckEntry t i (chain.get ⟨i, hi⟩) = .ok [] := by
    have := (sigFailsAux_ok_nil chain 0).1 hg0 i hi
    simpa using this
  obtain ⟨p, sig, pub, pb, hp, hdec, hlk, hfp, hvb⟩ := sigCheckEntry_ok_elim h0i
  have hsig : sig = pb ++ strBytes (canonPayloadStr (chain.get ⟨i, hi⟩)) := eq_of_beq hvb
  have hpb8 : pb.length = 8 := from_public_length hfp
  have hp' : ({ chain.get ⟨i, hi⟩ with agent_id := v } : Message).proof = some p := hp
  have hne : chain.set i ({ chain.get ⟨i, hi⟩ with agent_id := v }) ≠ [] :=
    set_ne_nil (ne_nil_of_lt hi)
  have hj : i < (chain.set i ({ chain.get ⟨i, hi⟩ with agent_id := v })).length := by
    simpa using hi
  cases hlk2 : List.lookup v t with
  | none =>
    have hfail := sigCheckEntry_fail_nokey (t := t) (i := i) hp' hdec hlk2
    have hfs2 : sigCheckEntry t i
        ((chain.set i ({ chain.get ⟨i, hi⟩ with agent_id := v })).get ⟨i, hj⟩) =
        .ok [⟨(i : Int), "No trusted public key found for agent " ++
          ({ chain.get ⟨i, hi⟩ with agent_id := v } : Message).agent_id, "signature"⟩] := by
      rw [get_set_self]; exact hfail
    exact verify_invalid_of_sig_fail hne hj hfs2 (by simp) hok
  | some pub2 =>
    cases hfp2 : from_public_b64url pub2 with
    | none =>
      have hfail := sigCheckEntry_fail_badkey (t := t) (i := i) hp' hdec hlk2 hfp2
      have hfs2 : sigCheckEntry t i
          ((chain.set i ({ chain.get ⟨i, hi⟩ with agent_id := v })).get ⟨i, hj⟩) =
          .ok [⟨(i : Int), "Failed to load trusted public key for " ++
            ({ chain.get ⟨i, hi⟩ with agent_id := v } : Message).agent_id, "signature"⟩] := by
        rw [get_set_self]; exact hfail
      exact verify_invalid_of_sig_fail hne hj hfs2 (by simp) hok
    | some pb2 =>
      have hpb8b : pb2.length = 8 := from_public_length hfp2
      have hvb' : verifyBytesPub pb2 sig
          (strBytes (canonPayloadStr { chain.get ⟨i, hi⟩ with agent_id := v })) = false := by
        cases htest : verifyBytesPub pb2 sig
            (strBytes (canonPayloadStr { chain.get ⟨i, hi⟩ with agent_id := v })) with
        | false => rfl
        | true =>
          exfalso
          have he : pb ++ strBytes (canonPayloadStr (chain.get ⟨i, hi⟩)) =
              pb2 ++ strBytes (canonPayloadStr { chain.get ⟨i, hi⟩ with agent_id := v }) := by
            rw [← hsig]; exact eq_of_beq htest
          have hsplit := List.append_inj he (by rw [hpb8, hpb8b])
          have he2 := strBytes_inj hsplit.2
          simp only [canonPayloadStr] at he2
          injection he2 with hdata
          exact hv (canonPayload_agent_id_inj hdata.symm)
      have hfail := sigCheckEntry_fail_sig (t := t) (i := i) hp' hdec hlk2 hfp2 hvb'
      have hfs2 : sigCheckEntry t i
          ((chain.set i ({ chain.get ⟨i, hi⟩ with agent_id := v })).get ⟨i, hj⟩) =
          .ok [⟨(i : Int), "Signature verification failed", "signature"⟩] := by
        rw [get_set_self]; exact hfail
      exact verify_invalid_of_sig_fail hne hj hfs2 (by simp) hok

/-- Mutating any proof field of a non-last entry changes that entry's digest
and so breaks the next entry's `prev_hash` link. -/
theorem verify_invalid_proof_change {t : TrustedKeys} {chain : List Message}
    {r : VerificationResult} {i : Nat} (hi1 : i + 1 < chain.length) {p' : Proof}
    (hpo : proofObjL (some p') ≠ proofObjL (chain.get ⟨i, Nat.lt_of_succ_lt hi1⟩).proof)
    (hh0 : hashFails chain = [])
    (hok : verify t
      (chain.set i { chain.get ⟨i, Nat.lt_of_succ_lt hi1⟩ with proof := some p' }) = .ok r) :
    r.is_valid = false ∧ r.failures ≠ [] := by
  have hi : i < chain.length := Nat.lt_of_succ_lt hi1
  have hlink : (chain.get ⟨i + 1, hi1⟩).prev_hash = message_hash (chain.get ⟨i, hi⟩) :=
    hashFails_nil_get hh0 hi1
  have hne : chain.set i ({ chain.get ⟨i, hi⟩ with proof := some p' }) ≠ [] :=
    set_ne_nil (ne_nil_of_lt hi)
  have hh' : hashFails (chain.set i ({ chain.get ⟨i, hi⟩ with proof := some p' })) ≠ [] := by
    refine hashFails_ne (j := i) (by simpa using hi1) ?_
    rw [get_set_ne _ _ _ _ (Nat.ne_of_lt (Nat.lt_succ_self i)) _ hi1, get_set_self, hlink]
    intro heq
    simp only [message_hash, sha256Hex, canonMsgStr] at heq
    injection heq with hdata
    exact hpo (canonMsg_proof_inj hdata.symm)
  exact verify_invalid_of_hash_ne hne hh' hok

/-! ## Claim C1 -/

/-- **C1** (amended).  Tamper evidence for a valid chain: mutating any of the
eight entry fields of any entry, or any proof field of a non-last entry,
yields a chain for which `verify` reports the result invalid with at least one
failure.  The restriction to non-last entries for proof fields is the
amendment: the signing payload omits the proof block entirely (the `proof`
key is removed, not replaced), so a proof field of the last entry is covered
by no signature and no link — `claim_C1_cex` exhibits a valid chain whose
last `proof.created` can be rewritten at will without `verify` noticing
(spec-modelled: signing and digest primitives follow §4.2–4.3 of the spec,
`ledger/crypto` being absent from the sources). -/
theorem claim_C1 (t : TrustedKeys) (chain : List Message) (r0 r : VerificationResult)
    (mu : FieldMut) (i : Nat) (hi : i < chain.length)
    (h0 : verify t chain = .ok r0) (hv : r0.is_valid = true)
    (hallow : mu.isProofField = true → i + 1 < chain.length)
    (hchange : applyMut mu (chain.get ⟨i, hi⟩) ≠ chain.get ⟨i, hi⟩)
    (hok : verify t (chain.set i (applyMut mu (chain.get ⟨i, hi⟩))) = .ok r) :
    r.is_valid = false ∧ r.failures ≠ [] := by
  have hne0 : chain ≠ [] := ne_nil_of_lt hi
  obtain ⟨hs0, hh0, hg0⟩ := verify_valid_parts hne0 h0 hv
  have h00 : 0 < chain.length := Nat.lt_of_le_of_lt (Nat.zero_le i) hi
  have hstruct := structFails_nil_get hs0 hi h00
  cases mu with
  | mContent v =>
    simp only [applyMut] at hchange hok
    refine verify_invalid_payload_change hi ?_ ?_ ?_ hg0 hok
    · rfl
    · rfl
    intro hpayEq
    exact hchange (by rw [canonPayload_content_inj hpayEq])
  | mTimestamp v =>
    simp only [applyMut] at hchange hok
    refine verify_invalid_payload_change hi ?_ ?_ ?_ hg0 hok
    · rfl
    · rfl
    intro hpayEq
    exact hchange (by rw [canonPayload_timestamp_inj hpayEq])
  | mSession v =>
    simp only [applyMut] at hchange hok
    refine verify_invalid_payload_change hi ?_ ?_ ?_ hg0 hok
    · rfl
    · rfl
    intro hpayEq
    exact hchange (by rw [canonPayload_session_id_inj hpayEq])
  | mSequence v =>
    simp only [applyMut] at hchange hok
    have hvne : v ≠ ((i : Nat) : Int) := by
      intro hveq
      apply hchange
      rw [hveq, ← hstruct.2.1]
    have hne' : chain.set i ({ chain.get ⟨i, hi⟩ with sequence := v }) ≠ [] :=
      set_ne_nil hne0
    have h0' : 0 < (chain.set i ({ chain.get ⟨i, hi⟩ with sequence := v })).length := by
      simpa using h00
    have hs' : structFails (chain.set i ({ chain.get ⟨i, hi⟩ with sequence := v })) ≠ [] := by
      refine structFails_ne (by simpa using hi) h0' ?_
      rw [get_set_self]
      rintro ⟨-, hseq, -⟩
      exact hvne hseq
    exact verify_invalid_of_struct_ne hne' hs' hok
  | mAgentId v =>
    simp only [applyMut] at hchange hok
    refine verify_invalid_agent_change hi ?_ hg0 hok
    intro hveq
    exact hchange (by rw [hveq])
  | mAgentRole v =>
    simp only [applyMut] at hchange hok
    refine verify_invalid_payload_change hi ?_ ?_ ?_ hg0 hok
    · rfl
    · rfl
    intro hpayEq
    exact hchange (by rw [canonPayload_agent_role_inj hpayEq])
  | mContentType v =>
    simp only [applyMut] at hchange hok
    refine verify_invalid_payload_change hi ?_ ?_ ?_ hg0 hok
    · rfl
    · rfl
    intro hpayEq
    exact hchange (by rw [canonPayload_content_type_inj hpayEq])
  | mPrevHash v =>
    simp only [applyMut] at hchange hok
    refine verify_invalid_payload_change hi ?_ ?_ ?_ hg0 hok
    · rfl
    · rfl
    intro hpayEq
    exact hchange (by rw [canonPayload_prev_hash_inj hpayEq])
  | pType v =>
    have hi1 : i + 1 < chain.length := hallow rfl
    obtain ⟨p, hp⟩ := Option.ne_none_iff_exists'.mp hstruct.2.2
    simp only [applyMut, hp] at hchange hok
    refine verify_invalid_proof_change hi1 ?_ hh0 hok
    rw [hp]
    intro hpe
    simp only [proofObjL] at hpe
    have hveq := proofObj_type_inj hpe
    apply hchange
    rw [hveq, prf_upd_type, ← hp]
  | pCreated v =>
    have hi1 : i + 1 < chain.length := hallow rfl
    obtain ⟨p, hp⟩ := Option.ne_none_iff_exists'.mp hstruct.2.2
    simp only [applyMut, hp] at hchange hok
    refine verify_invalid_proof_change hi1 ?_ hh0 hok
    rw [hp]
    intro hpe
    simp only [proofObjL] at hpe
    have hveq := proofObj_created_inj hpe
    apply hchange
    rw [hveq, prf_upd_created, ← hp]
  | pVerifMethod v =>
    have hi1 : i + 1 < chain.length := hallow rfl
    obtain ⟨p, hp⟩ := Option.ne_none_iff_exists'.mp hstruct.2.2
    simp only [applyMut, hp] at hchange hok
    refine verify_invalid_proof_change hi1 ?_ hh0 hok
    rw [hp]
    intro hpe
    simp only [proofObjL] at hpe
    have hveq := proofObj_verification_method_inj hpe
    apply hchange
    rw [hveq, prf_upd_verif, ← hp]
  | pPurpose v =>
    have hi1 : i + 1 < chain.length := hallow rfl
    obtain ⟨p, hp⟩ := Option.ne_none_iff_exists'.mp hstruct.2.2
    simp only [applyMut, hp] at hchange hok
    refine verify_invalid_proof_change hi1 ?_ hh0 hok
    rw [hp]
    intro hpe
    simp only [proofObjL] at hpe
    have hveq := proofObj_proof_purpose_inj hpe
    apply hchange
    rw [hveq, prf_upd_purpose, ← hp]
  | pValue v =>
    have hi1 : i + 1 < chain.length := hallow rfl
    obtain ⟨p, hp⟩ := Option.ne_none_iff_exists'.mp hstruct.2.2
    simp only [applyMut, hp] at hchange hok
    refine verify_invalid_proof_change hi1 ?_ hh0 hok
    rw [hp]
    intro hpe
    simp only [proofObjL] at hpe
    have hveq := proofObj_proof_value_inj hpe
    apply hchange
    rw [hveq, prf_upd_value, ← hp]

set_option maxRecDepth 10000

/-- **C1** (counterexample to the claim as stated): a valid one-entry chain
whose (last) entry's `proof.created` is rewritten is a different chain that
still verifies as fully valid — the proof block of the last entry lies outside
every signed byte string and outside every stored `prev_hash`. -/
theorem claim_C1_cex :
    verify wTrusted [wEnt0] =
      .ok ⟨true, "Chain of 1 messages verified successfully", []⟩ ∧
    applyMut (.pCreated "1999-01-01T00:00:00Z") wEnt0 ≠ wEnt0 ∧
    verify wTrusted [applyMut (.pCreated "1999-01-01T00:00:00Z") wEnt0] =
      .ok ⟨true, "Chain of 1 messages verified successfully", []⟩ := by
  exact ⟨by decide, by decide, by decide⟩

/-- Witness for C1: mutating the content of the only entry of a concrete
valid chain flips the verdict to one signature failure. -/
theorem claim_C1_wit :
    (⟨false, "Chain verification failed with 1 issues",
        [⟨0, "Signature verification failed", "signature"⟩]⟩ :
      VerificationResult).is_valid = false ∧
    (⟨false, "Chain verification failed with 1 issues",
        [⟨0, "Signature verification failed", "signature"⟩]⟩ :
      VerificationResult).failures ≠ [] :=
  claim_C1 wTrusted [wEnt0]
    ⟨true, "Chain of 1 messages verified successfully", []⟩
    ⟨false, "Chain verification failed with 1 issues",
      [⟨0, "Signature verification failed", "signature"⟩]⟩
    (.mContent "z") 0 (by decide) (by decide) rfl (by decide) (by decide) (by decide)

/-! ## Claim C2 -/

/-- **C2** (amended).  The byte string signed over and checked in phase 3 is
the canonical JSON of the entry with the `proof` key *removed*
(`canonPayloadStr`), not with the proof replaced by an empty object: the
signer stores exactly a signature over the removed-key bytes, phase 3 accepts
only signatures over the removed-key bytes, and for every entry those bytes
differ from the replaced-by-empty-object bytes the spec describes
(spec-modelled: `sign_message` follows spec §4.3, `ledger/crypto` being
absent from the sources; the verifying side and the canonical serialization
are from `verifier.py` and `canon.py`). -/
theorem claim_C2 (k : AgentKeyPair) (c : String) (m : Message) :
    ((k.sign_message c m).proof.map fun p => p.proof_value) =
      some (b64url_encode (k.sign_bytes (strBytes (canonPayloadStr m)))) ∧
    (∀ t i, sigCheckEntry t i m = Except.ok [] →
      ∃ p sig pub pb, m.proof = some p ∧ b64url_decode p.proof_value = some sig ∧
        List.lookup m.agent_id t = some pub ∧ from_public_b64url pub = some pb ∧
        sig = pb ++ strBytes (canonPayloadStr m)) ∧
    canonPayloadStr m ≠ canonMsgStr { m with proof := none } := by
  refine ⟨rfl, ?_, canonPayload_ne_canonEmptyProof m⟩
  intro t i h
  obtain ⟨p, sig, pub, pb, h1, h2, h3, h4, h5⟩ := sigCheckEntry_ok_elim h
  exact ⟨p, sig, pub, pb, h1, h2, h3, h4, eq_of_beq h5⟩

/-- **C2** (counterexample to the claim as stated): a concrete signed entry
that phase 3 accepts, whose stored `proof_value` is the signature over the
proof-key-removed bytes and is not the signature over the bytes with the
proof replaced by an empty object. -/
theorem claim_C2_cex :
    sigCheckEntry wTrusted 0 wEnt0 = .ok [] ∧
    (wEnt0.proof.map fun p => p.proof_value) =
      some (b64url_encode (wKey.sign_bytes (strBytes (canonPayloadStr wMsg0)))) ∧
    (wEnt0.proof.map fun p => p.proof_value) ≠
      some (b64url_encode
        (wKey.sign_bytes (strBytes (canonMsgStr { wMsg0 with proof := none })))) := by
  exact ⟨by decide, by decide, by decide⟩

/-! ## Claim C3 -/

/-- **C3**.  `verify_from_storage` loads the chain and applies `verify`; every
load failure yields (without raising) a result carrying exactly one failure
record, at index `-1` with category `storage` and the error text as message
(spec-modelled: `verify_from_storage` is absent from the sources, only its
callers are; the loader and `verify` are from the sources). -/
theorem claim_C3 (t : TrustedKeys) (sid : String) (st : SQLiteStorage) :
    verify_from_storage t sid st =
      match st.load_messages sid with
      | .ok msgs => verify t msgs
      | .error e => .ok ⟨false, "Failed to load chain from storage",
          [⟨-1, e, "storage"⟩]⟩ := by
  unfold verify_from_storage
  cases st.load_messages sid <;> rfl

/-! ## Claim C4 -/

/-- **C4** (amended).  Construction over a storage backend loads the stored
entries on success — but a load failure (a broken stored chain included) does
*not* make construction fail: the error is swallowed and a session with an
empty in-memory message list is returned. -/
theorem claim_C4 (sid : String) (st : SQLiteStorage) :
    (ConversationSession.mk_init sid (some st)).messages =
      (match st.load_messages sid with
        | .ok msgs => msgs
        | .error _ => []) ∧
    (ConversationSession.mk_init sid (some st)).storage = some st := by
  cases h : st.load_messages sid <;> simp [ConversationSession.mk_init, h]

/-- **C4** (counterexample to the claim as stated): a stored two-entry chain
with a broken link makes `load_messages` fail, yet construction returns a
session with an empty message list instead of failing. -/
theorem claim_C4_cex :
    SQLiteStorage.load_messages ⟨some wDBBroken⟩ "s" =
      .error "Chain broken at sequence 1" ∧
    ConversationSession.mk_init "s" (some ⟨some wDBBroken⟩) =
      ⟨"s", [], some ⟨some wDBBroken⟩⟩ := by
  exact ⟨by decide, by decide⟩

/-! ## Claim C5 -/

/-- **C5**.  On a non-empty chain: when phase 1 finds failures, the result's
failure list is exactly the phase-1 list (every structural failure at every
position, nothing from phases 2 and 3); when phase 1 is clean, the failure
list is all of phase 2's failures followed by all of phase 3's, and validity
is exactly their joint emptiness. -/
theorem claim_C5 (t : TrustedKeys) (chain : List Message) (r : VerificationResult)
    (hne : chain ≠ []) (hok : verify t chain = .ok r) :
    (structFails chain ≠ [] →
      r.failures = structFails chain ∧ r.is_valid = false) ∧
    (structFails chain = [] → ∃ g, sigFailsAux t 0 chain = .ok g ∧
      r.failures = hashFails chain ++ g ∧
      r.is_valid = (hashFails chain ++ g).isEmpty) := by
  rcases verify_ok_cases hne hok with ⟨hs, hr⟩ | ⟨hs, g, hg, hf, hiv⟩
  · exact ⟨fun _ => by rw [hr]; exact ⟨rfl, rfl⟩, fun h => absurd h hs⟩
  · exact ⟨fun h => absurd hs h, fun _ => ⟨g, hg, hf, hiv⟩⟩

/-- Witness for C5 on a concrete clean one-entry chain. -/
theorem claim_C5_wit :
    (structFails [wEnt0] ≠ [] →
      (⟨true, "Chain of 1 messages verified successfully", []⟩ :
        VerificationResult).failures = structFails [wEnt0] ∧
      (⟨true, "Chain of 1 messages verified successfully", []⟩ :
        VerificationResult).is_valid = false) ∧
    (structFails [wEnt0] = [] → ∃ g, sigFailsAux wTrusted 0 [wEnt0] = .ok g ∧
      (⟨true, "Chain of 1 messages verified successfully", []⟩ :
        VerificationResult).failures = hashFails [wEnt0] ++ g ∧
      (⟨true, "Chain of 1 messages verified successfully", []⟩ :
        VerificationResult).is_valid = (hashFails [wEnt0] ++ g).isEmpty) :=
  claim_C5 wTrusted [wEnt0] ⟨true, "Chain of 1 messages verified successfully", []⟩
    (by decide) (by decide)

/-! ## Claim C6 -/

/-- When phase 3 raises nothing, `verify` returns a result. -/
theorem verify_isOk_of {t : TrustedKeys} {chain : List Message}
    (hg : ∃ g, sigFailsAux t 0 chain = .ok g) :
    ∃ r, verify t chain = .ok r := by
  cases chain with
  | nil => exact ⟨_, rfl⟩
  | cons m0 rest =>
    obtain ⟨g, hg⟩ := hg
    unfold verify
    dsimp only
    cases hse : (structFails (m0 :: rest)).isEmpty with
    | false => exact ⟨_, rfl⟩
    | true =>
      rw [hg]
      dsimp only
      cases hf : (hashFails (m0 :: rest) ++ g).isEmpty with
      | false => exact ⟨_, rfl⟩
      | true => exact ⟨_, rfl⟩

/-- **C6** (amended).  `verify` returns a result (instead of raising) when
every entry carries a proof *whose `proof_value` decodes*; but a present
proof with a malformed base64url `proof_value` makes `verify` raise the
decoder's error instead of recording a failure — `claim_C6_cex`. -/
theorem claim_C6 (t : TrustedKeys) (chain : List Message)
    (h : ∀ m ∈ chain,
      (Option.bind m.proof fun p => b64url_decode p.proof_value).isSome = true) :
    ∃ r, verify t chain = .ok r := by
  refine verify_isOk_of (sigFailsAux_isOk chain 0 ?_)
  intro m hm
  have h2 := h m hm
  cases hp : m.proof with
  | none => rw [hp] at h2; simp at h2
  | some p =>
    rw [hp] at h2
    exact ⟨p, rfl, by simpa using h2⟩

/-- Witness for C6 on a concrete well-formed one-entry chain. -/
theorem claim_C6_wit : ∃ r, verify wTrusted [wEnt0] = .ok r :=
  claim_C6 wTrusted [wEnt0] (by decide)

/-- **C6** (counterexample to the claim as stated): every entry of this chain
carries a proof, yet `verify` raises the base64 decoder's error — `"A"` is one
dangling data character — rather than returning a failure record. -/
theorem claim_C6_cex :
    (∀ m ∈ [wEntBadB64], m.proof ≠ none) ∧
    verify wTrusted [wEntBadB64] =
      .error "binascii.Error: invalid base64-encoded string" := by
  exact ⟨by decide, by decide⟩

/-! ## Claim C7 -/

theorem mapM_cons_eq {α β : Type} (f : α → Except String β) (a : α) (l : List α) :
    (a :: l).mapM f =
      (f a).bind fun b => (l.mapM f).bind fun bs => .ok (b :: bs) := by
  rw [List.mapM_cons]; rfl

theorem exceptMapM_ok {α β : Type} {f : α → Except String β} : ∀ {xs : List α} {ys : List β},
    xs.mapM f = .ok ys →
    ys.length = xs.length ∧
    ∀ j (hj : j < xs.length) (hj2 : j < ys.length),
      f (xs.get ⟨j, hj⟩) = .ok (ys.get ⟨j, hj2⟩) := by
  intro xs
  induction xs with
  | nil =>
    intro ys h
    rw [show ([] : List α).mapM f = Except.ok ([] : List β) from rfl] at h
    have hy : ([] : List β) = ys := Except.ok.inj h
    subst hy
    exact ⟨rfl, fun j hj _ => absurd hj (by simp)⟩
  | cons a rest ih =>
    intro ys h
    rw [mapM_cons_eq] at h
    cases hf : f a with
    | error e => rw [hf] at h; simp [Except.bind] at h
    | ok b =>
      rw [hf] at h
      dsimp only [Except.bind] at h
      cases hr : rest.mapM f with
      | error e => rw [hr] at h; simp [Except.bind] at h
      | ok bs =>
        rw [hr] at h
        dsimp only [Except.bind] at h
        have hy : b :: bs = ys := Except.ok.inj h
        subst hy
        obtain ⟨hlen, hget⟩ := ih hr
        refine ⟨by simp [hlen], ?_⟩
        intro j hj hj2
        cases j with
        | zero => exact hf
        | succ n => exact hget n (by simpa using hj) (by simpa using hj2)

/-- A successfully reconstructed row keeps its `sequence` column. -/
theorem rowToMsg_sequence {sid : String} {r : Row} {m : Message}
    (h : rowToMsg sid r = .ok m) : m.sequence = r.sequence := by
  unfold rowToMsg at h
  cases h1 : parseFlat r.canonical_json with
  | none => rw [h1] at h; simp at h
  | some kvs =>
    rw [h1] at h
    dsimp only at h
    cases h2 : loadsProof r.proof_json with
    | none => rw [h2] at h; simp at h
    | some proof =>
      rw [h2] at h
      dsimp only at h
      cases h3 : lookupStr "id" kvs with
      | none => rw [h3] at h; simp at h
      | some idv =>
        rw [h3] at h
        cases h4 : lookupStr "content" kvs with
        | none => rw [h4] at h; simp at h
        | some contentv =>
          rw [h4] at h
          dsimp only at h
          cases h5 : (match List.lookup "content_type" kvs with
              | some (JVal.s v) => some v
              | none => some "text/plain"
              | some (JVal.i _) => none) with
          | none => rw [h5] at h; simp at h
          | some ctv =>
            rw [h5] at h
            dsimp only at h
            rw [← Except.ok.inj h]

/-- The check loop returns, when it returns, the loaded list itself. -/
theorem chainGuard_ok_eq : ∀ {loaded rest l2 : List Message},
    chainGuard loaded rest = .ok l2 → l2 = loaded := by
  intro loaded rest
  induction rest with
  | nil => intro l2 h; exact (Except.ok.inj h).symm
  | cons m r ih =>
    intro l2 h
    rw [chainGuard] at h
    by_cases hs : m.sequence > 0
    · rw [if_pos hs] at h
      cases hl : loaded[(m.sequence - 1).toNat]? with
      | none => rw [hl] at h; simp at h
      | some prev =>
        rw [hl] at h
        dsimp only at h
        by_cases hm : m.prev_hash = message_hash prev
        · rw [if_pos hm] at h; exact ih h
        · rw [if_neg hm] at h; simp at h
    · rw [if_neg hs] at h; exact ih h

/-- The reconstructed chain comes out in ascending `sequence` order. -/
theorem parseRows_sorted {d : DB} {sid : String} {l : List Message}
    (h : parseRows d sid = .ok l) :
    List.Chain' (fun a b => a.sequence ≤ b.sequence) l := by
  unfold parseRows at h
  obtain ⟨hlen, hget⟩ := exceptMapM_ok h
  have hsorted : List.Sorted (fun a b : Row => a.sequence ≤ b.sequence)
      (List.insertionSort (fun a b => a.sequence ≤ b.sequence)
        (d.filter fun r => r.session_id == sid)) := by
    haveI : IsTotal Row (fun a b : Row => a.sequence ≤ b.sequence) :=
      ⟨fun a b => Int.le_total a.sequence b.sequence⟩
    haveI : IsTrans Row (fun a b : Row => a.sequence ≤ b.sequence) :=
      ⟨fun a b c hab hbc => le_trans hab hbc⟩
    exact List.sorted_insertionSort _ _
  have hcg := List.chain'_iff_get.1 (List.Pairwise.chain' hsorted)
  rw [List.chain'_iff_get]
  intro j hj
  have e1 := hget j (by omega) (by omega)
  have e2 := hget (j + 1) (by omega) (by omega)
  rw [rowToMsg_sequence e1, rowToMsg_sequence e2]
  exact hcg j (by omega)

/-- **C7**.  `load_messages` (on an open database) returns the stored entries
in ascending `sequence` order; and given the reconstructed (sorted) list,
when its sequences are exactly the positions the defense-in-depth loop
compares every entry's `prev_hash` against the recomputed digest of its true
predecessor, returning the list when every link matches and raising
"Chain broken at sequence N" — `N` the first offending entry's sequence —
otherwise. -/
theorem claim_C7 (d : DB) (sid : String) :
    (∀ l, loadMessagesDB d sid = .ok l →
      parseRows d sid = .ok l ∧
      List.Chain' (fun a b => a.sequence ≤ b.sequence) l) ∧
    (∀ l, parseRows d sid = .ok l →
      (∀ j (hj : j < l.length), (l.get ⟨j, hj⟩).sequence = (j : Int)) →
      loadMessagesDB d sid =
        match firstBreak l with
        | none => Except.ok l
        | some s => Except.error ("Chain broken at sequence " ++ toString s)) := by
  constructor
  · intro l h
    unfold loadMessagesDB at h
    cases hp : parseRows d sid with
    | error e => rw [hp] at h; simp at h
    | ok loaded =>
      rw [hp] at h
      dsimp only at h
      have hl : l = loaded := chainGuard_ok_eq h
      subst hl
      exact ⟨rfl, parseRows_sorted hp⟩
  · intro l hp hr
    unfold loadMessagesDB
    rw [hp]
    exact chainGuard_self l hr

/-! ## Claim C8 -/

theorem samePK_self (r : Row) : samePK r r = true := by
  simp [samePK]

/-- `INSERT OR IGNORE` is idempotent on the primary key. -/
theorem insertRow_idem (d : DB) (r : Row) : insertRow (insertRow d r) r = insertRow d r := by
  by_cases h : d.any (samePK r) = true
  · have h1 : insertRow d r = d := by rw [insertRow, if_pos h]
    rw [h1, insertRow, if_pos h]
  · have h1 : insertRow d r = d ++ [r] := by rw [insertRow, if_neg h]
    have h2 : (d ++ [r]).any (samePK r) = true := by
      rw [List.any_append]
      simp [samePK_self]
    rw [h1, insertRow, if_pos h2, ← h1]

/-- **C8**.  Re-appending an already-stored `(session_id, sequence)` row is a
silent no-op: appending the same signed entry twice equals appending it once,
so in particular the chains later loaded from the two storages coincide. -/
theorem claim_C8 (st : SQLiteStorage) (e : Message) :
    ((st.append e).bind fun st2 => st2.append e) = st.append e ∧
    (∀ st1 st2, st.append e = .ok st1 →
      ((st.append e).bind fun s2 => s2.append e) = .ok st2 →
      st2.load_messages e.session_id = st1.load_messages e.session_id) := by
  have hmain : ((st.append e).bind fun st2 => st2.append e) = st.append e := by
    unfold SQLiteStorage.append
    cases hp : e.proof with
    | none => rfl
    | some p =>
      dsimp only
      cases hc : st.conn with
      | none => rfl
      | some d =>
        dsimp only [Except.bind]
        rw [insertRow_idem]
  refine ⟨hmain, ?_⟩
  intro st1 st2 h1 h2
  rw [hmain, h1] at h2
  rw [← Except.ok.inj h2]

/-! ## Claim C10 -/

/-- The two loader error strings differ (their first five characters do). -/
theorem chain_broken_ne_index_err (s : Int) :
    ("Chain broken at sequence " ++ toString s) ≠ "list index out of range" := by
  intro h
  have h5 : (['C', 'h', 'a', 'i', 'n'] : List Char) = ['l', 'i', 's', 't', ' '] :=
    congrArg (fun t : String => t.data.take 5) h
  exact absurd h5 (by decide)

/-- **C10**.  Under the precondition that the reconstructed entries'
sequences are exactly `0, 1, …, n-1`, the predecessor lookup
`loaded[msg.sequence - 1]` is always in bounds — the load never raises the
out-of-bounds `IndexError` and compares each entry against its true
predecessor, reporting the first break by its sequence number; a stored row
violating the precondition (a lone row with sequence `2`) drives the lookup
out of bounds. -/
theorem claim_C10 (d : DB) (sid : String) (l : List Message)
    (hp : parseRows d sid = .ok l)
    (hr : ∀ j (hj : j < l.length), (l.get ⟨j, hj⟩).sequence = (j : Int)) :
    loadMessagesDB d sid =
      (match firstBreak l with
        | none => Except.ok l
        | some s => Except.error ("Chain broken at sequence " ++ toString s)) ∧
    loadMessagesDB d sid ≠ .error "list index out of range" ∧
    loadMessagesDB [wRowSolo] "s" = .error "list index out of range" := by
  have heq : loadMessagesDB d sid =
      (match firstBreak l with
        | none => Except.ok l
        | some s => Except.error ("Chain broken at sequence " ++ toString s)) := by
    unfold loadMessagesDB
    rw [hp]
    exact chainGuard_self l hr
  refine ⟨heq, ?_, by decide⟩
  rw [heq]
  cases hfb : firstBreak l with
  | none => simp
  | some sq =>
    intro h
    exact chain_broken_ne_index_err sq (Except.error.inj h)

/-- Witness for C10 on the concrete well-linked two-row database. -/
theorem claim_C10_wit :
    (loadMessagesDB wDBGood "s" =
      match firstBreak [wLoaded0, wMsgG1] with
      | none => Except.ok [wLoaded0, wMsgG1]
      | some s => Except.error ("Chain broken at sequence " ++ toString s)) ∧
    loadMessagesDB wDBGood "s" ≠ .error "list index out of range" ∧
    loadMessagesDB [wRowSolo] "s" = .error "list index out of range" :=
  claim_C10 wDBGood "s" [wLoaded0, wMsgG1] (by decide) (by decide)

/-! ## Claim C9 -/

/-- Converse of `structFails_nil_get`: the pointwise facts give an empty
phase-1 list. -/
theorem structFails_nil_of_get {chain : List Message}
    (h : ∀ j (hj : j < chain.length) (h0 : 0 < chain.length),
      (chain.get ⟨j, hj⟩).session_id = (chain.get ⟨0, h0⟩).session_id ∧
      (chain.get ⟨j, hj⟩).sequence = (j : Int) ∧ (chain.get ⟨j, hj⟩).proof ≠ none) :
    structFails chain = [] := by
  cases chain with
  | nil => rfl
  | cons m0 rest =>
    rw [structFails, structFailsAux_nil_iff, structOk_iff_get]
    intro j hj
    have := h j hj (by simp)
    simpa using this

theorem get_append_left2 {α : Type} (l1 l2 : List α) (j : Nat) (hj : j < l1.length)
    (hj' : j < (l1 ++ l2).length) : (l1 ++ l2).get ⟨j, hj'⟩ = l1.get ⟨j, hj⟩ := by
  simp only [List.get_eq_getElem]
  exact List.getElem_append_left hj

theorem get_append_last {α : Type} (l1 : List α) (x : α)
    (hj' : l1.length < (l1 ++ [x]).length) : (l1 ++ [x]).get ⟨l1.length, hj'⟩ = x := by
  simp only [List.get_eq_getElem]
  exact List.getElem_concat_length l1 x _ rfl _

theorem sign_bytes_lt_256 (k : AgentKeyPair) (s : String) :
    ∀ x ∈ k.sign_bytes (strBytes s), x < 256 := by
  intro x hx
  rw [AgentKeyPair.sign_bytes, List.mem_append] at hx
  rcases hx with h | h
  · exact natToBytes8_lt_256 _ _ h
  · exact strBytes_lt_256 _ _ h

/-- Round trip of the symbolic public key through base64url. -/
theorem from_public_self (k : AgentKeyPair) :
    from_public_b64url k.public_key_b64url = some k.public_bytes := by
  unfold from_public_b64url AgentKeyPair.public_key_b64url
  rw [b64_roundtrip k.public_bytes (fun x hx => natToBytes8_lt_256 k.seed x hx)]
  dsimp only
  rw [if_pos (show k.public_bytes.length = 8 from rfl)]

/-- A freshly signed entry passes phase 3 when the signer's public key is the
trusted one for its agent. -/
theorem sigCheckEntry_signed (t : TrustedKeys) (i : Nat) (k : AgentKeyPair)
    (cr : String) (m : Message)
    (hlk : List.lookup m.agent_id t = some k.public_key_b64url) :
    sigCheckEntry t i (k.sign_message cr m) = .ok [] := by
  unfold sigCheckEntry
  dsimp only [AgentKeyPair.sign_message]
  rw [b64_roundtrip _ (sign_bytes_lt_256 k _)]
  dsimp only
  rw [hlk]
  dsimp only
  rw [from_public_self]
  dsimp only
  have hpay : canonPayloadStr { m with proof := some {
      type := "Ed25519Signature2020", created := cr,
      verification_method := k.public_key_b64url,
      proof_purpose := "assertionMethod",
      proof_value := b64url_encode (k.sign_bytes (strBytes (canonPayloadStr m))) } } =
      canonPayloadStr m := congrArg String.mk (canonPayload_proof_irrel m _)
  rw [if_pos ?_]
  rw [verifyBytesPub, hpay, AgentKeyPair.sign_bytes, AgentKeyPair.public_bytes]
  simp

/-- Appending a correctly signed next entry keeps the chain fully valid. -/
theorem verify_snoc_valid {t : TrustedKeys} {msgs : List Message} {m : Message}
    (k : AgentKeyPair) (cr : String)
    (hs0 : structFails msgs = []) (hh0 : hashFails msgs = [])
    (hg0 : sigFailsAux t 0 msgs = .ok [])
    (hses : ∀ (h0 : 0 < msgs.length), (msgs.get ⟨0, h0⟩).session_id = m.session_id)
    (hseq : m.sequence = (msgs.length : Int))
    (hprev : m.prev_hash = (match msgs.getLast? with
      | some last => message_hash last
      | none => ""))
    (hlk : List.lookup m.agent_id t = some k.public_key_b64url) :
    verify t (msgs ++ [k.sign_message cr m]) =
      .ok ⟨true, "Chain of " ++ toString (msgs.length + 1) ++
        " messages verified successfully", []⟩ := by
  have hne : msgs ++ [k.sign_message cr m] ≠ [] := by simp
  have hlen : (msgs ++ [k.sign_message cr m]).length = msgs.length + 1 := by simp
  have hstructAll : structFails (msgs ++ [k.sign_message cr m]) = [] := by
    refine structFails_nil_of_get ?_
    intro j hj h0
    by_cases hjm : j < msgs.length
    · have h0m : 0 < msgs.length := Nat.lt_of_le_of_lt (Nat.zero_le j) hjm
      rw [get_append_left2 _ _ _ hjm, get_append_left2 _ _ _ h0m]
      exact structFails_nil_get hs0 hjm h0m
    · have hje : j = msgs.length := by
        rw [hlen] at hj; omega
      subst hje
      rw [get_append_last]
      refine ⟨?_, by exact hseq, by simp [AgentKeyPair.sign_message]⟩
      have hhead : ((msgs ++ [k.sign_message cr m]).get ⟨0, h0⟩).session_id =
          m.session_id := by
        cases msgs with
        | nil => rfl
        | cons m1 mrest =>
          rw [get_append_left2 _ _ _ (by simp : 0 < (m1 :: mrest).length)]
          exact hses (by simp)
      exact hhead.symm
  have hhashAll : hashFails (msgs ++ [k.sign_message cr m]) = [] := by
    rw [hashFails, hashFailsAux_nil_iff, List.chain'_append]
    refine ⟨(hashFailsAux_nil_iff msgs 1).1 hh0, List.chain'_singleton _, ?_⟩
    intro x hx y hy
    simp only [List.head?_cons, Option.mem_def, Option.some.injEq] at hy
    subst hy
    show m.prev_hash = message_hash x
    rw [hprev, show msgs.getLast? = some x from hx]
  have hsigAll : sigFailsAux t 0 (msgs ++ [k.sign_message cr m]) = .ok [] := by
    rw [sigFailsAux_ok_nil]
    intro j hj
    by_cases hjm : j < msgs.length
    · rw [get_append_left2 _ _ _ hjm]
      exact (sigFailsAux_ok_nil msgs 0).1 hg0 j hjm
    · have hje : j = msgs.length := by
        rw [hlen] at hj; omega
      subst hje
      rw [get_append_last]
      rw [Nat.zero_add]
      exact sigCheckEntry_signed t msgs.length k cr m hlk
  have hv := verify_valid_of hne hstructAll hhashAll hsigAll
  rw [hv, hlen]

/-- **C9**.  When persisting the freshly signed entry fails, the in-memory
append is not rolled back: the signed entry is appended to the session's
message list and returned, the storage handle is kept, and the in-memory
chain (assumed clean before, with the signer's key trusted for the agent)
still verifies as fully valid (spec-modelled: the signing primitive follows
spec §4.3, `ledger/crypto` being absent from the sources; the session and
verifier logic are from the sources). -/
theorem claim_C9 (t : TrustedKeys) (s : ConversationSession) (content role : String)
    (k : AgentKeyPair) (aid ts cr ct : String) (st : SQLiteStorage) (err : String)
    (hst : s.storage = some st)
    (hfail : st.append (s.append content role k aid ts cr ct).2 = .error err)
    (hses : ∀ (h0 : 0 < s.messages.length),
      (s.messages.get ⟨0, h0⟩).session_id = s.session_id)
    (hs0 : structFails s.messages = []) (hh0 : hashFails s.messages = [])
    (hg0 : sigFailsAux t 0 s.messages = .ok [])
    (hlk : List.lookup aid t = some k.public_key_b64url) :
    (s.append content role k aid ts cr ct).1.messages =
      s.messages ++ [(s.append content role k aid ts cr ct).2] ∧
    (s.append content role k aid ts cr ct).1.storage = some st ∧
    verify t (s.append content role k aid ts cr ct).1.messages =
      .ok ⟨true, "Chain of " ++ toString (s.messages.length + 1) ++
        " messages verified successfully", []⟩ := by
  have h2 : (s.append content role k aid ts cr ct).2 =
      k.sign_message cr {
        id := "msg-" ++ pad4 s.messages.length ++ "-" ++ lastSix aid,
        timestamp := ts, session_id := s.session_id,
        sequence := (s.messages.length : Int), agent_id := aid,
        agent_role := role, content := content, content_type := ct,
        prev_hash := (match s.messages.getLast? with
          | some last => message_hash last
          | none => ""), proof := none } := by
    unfold ConversationSession.append
    rw [hst]
    dsimp only
    cases st.append _ <;> rfl
  rw [h2] at hfail
  have h1 : (s.append content role k aid ts cr ct).1 =
      ⟨s.session_id, s.messages ++ [k.sign_message cr {
        id := "msg-" ++ pad4 s.messages.length ++ "-" ++ lastSix aid,
        timestamp := ts, session_id := s.session_id,
        sequence := (s.messages.length : Int), agent_id := aid,
        agent_role := role, content := content, content_type := ct,
        prev_hash := (match s.messages.getLast? with
          | some last => message_hash last
          | none => ""), proof := none }], some st⟩ := by
    unfold ConversationSession.append
    rw [hst]
    dsimp only
    rw [hfail]
  refine ⟨by rw [h1, h2], by rw [h1], ?_⟩
  rw [h1]
  dsimp only
  exact verify_snoc_valid k cr hs0 hh0 hg0 hses rfl rfl hlk

/-- Witness for C9: a session over a closed storage connection still appends
in memory and the resulting one-entry chain verifies as valid. -/
theorem claim_C9_wit :
    wAppended.1.messages = ([] : List Message) ++ [wAppended.2] ∧
    wAppended.1.storage = some (⟨none⟩ : SQLiteStorage) ∧
    verify wTrusted wAppended.1.messages =
      .ok ⟨true, "Chain of " ++ toString (([] : List Message).length + 1) ++
        " messages verified successfully", []⟩ :=
  claim_C9 wTrusted wSessClosed "x" "user" wKey "a" "t0" "c0" "text/plain" ⟨none⟩
    "Storage connection is closed" rfl (by decide)
    (fun h0 => absurd h0 (by decide)) rfl rfl rfl (by decide)

end Ledger
